import Mathlib

/-!
Verification of the request orchestration and resource-control layer of the
research-agent backend: the rate limiters of
`backend/middleware/rate_limiting.py`, the cache engine of
`backend/services/cache_service.py`, and the research orchestrator of
`backend/services/research_orchestrator.py`, shallowly embedded as pure Lean
functions.

Python `time.time()` readings and `datetime` values are modelled as exact
rationals; MongoDB collections as association lists; every fallible
persistence call as an `Except`-valued outcome supplied by the environment,
threaded exactly along the control flow of the Python source.
-/

set_option maxHeartbeats 1000000
set_option maxRecDepth 100000

namespace ResearchAgent

/-! ## Sliding-window rate limiter

Embedding of `SlidingWindowRateLimiter` (`backend/middleware/rate_limiting.py`,
lines 27-69).  The per-key deque `self.requests[key]` is a list of timestamps,
oldest first; concurrent calls are serialized by `self.lock`, so a run of the
limiter against one key is a sequence of `is_allowed` executions. -/

namespace SlidingWindow

/-- The `__init__` parameters of `SlidingWindowRateLimiter`. -/
structure Config where
  max_requests : Nat
  window_seconds : ℚ

/-- The eviction loop:
`while request_times and request_times[0] < window_start: request_times.popleft()`. -/
def evictOld (windowStart : ℚ) : List ℚ → List ℚ
  | [] => []
  | t :: ts => if t < windowStart then evictOld windowStart ts else t :: ts

/-- The values produced by one `is_allowed` call: the returned boolean, the
deque of the key afterwards, and `rate_limit_info["remaining"]`. -/
structure AllowResult where
  allowed : Bool
  events : List ℚ
  remaining : Nat

/-- Embedding of `SlidingWindowRateLimiter.is_allowed`: the body under `self.lock` for one
key: `now` is the `time.time()` reading and `q` the deque of that key. -/
def is_allowed (cfg : Config) (now : ℚ) (q : List ℚ) : AllowResult :=
  let request_times := evictOld (now - cfg.window_seconds) q
  let current_requests := request_times.length
  if current_requests < cfg.max_requests then
    { allowed := true, events := request_times ++ [now],
      remaining := cfg.max_requests - current_requests - 1 }
  else
    { allowed := false, events := request_times,
      remaining := cfg.max_requests - current_requests }

/-- One step of a serialized run against a single key, accumulating the deque
and the list of admitted timestamps. -/
def step (cfg : Config) (st : List ℚ × List ℚ) (now : ℚ) : List ℚ × List ℚ :=
  let r := is_allowed cfg now st.1
  (r.events, if r.allowed then st.2 ++ [now] else st.2)

/-- A serialized run of `is_allowed` calls (their `time.time()` readings, in
order) against one key, starting from the empty deque `defaultdict(deque)`
provides.  Returns the final deque and the admitted timestamps. -/
def run (cfg : Config) (calls : List ℚ) : List ℚ × List ℚ :=
  calls.foldl (step cfg) ([], [])

end SlidingWindow

/-! ## Token-bucket rate limiter

Embedding of `TokenBucketRateLimiter` (`backend/middleware/rate_limiting.py`,
lines 72-114). -/

namespace TokenBucket

/-- The `__init__` parameters of `TokenBucketRateLimiter`.  `capacity` is an
`int` in the source; it is embedded into ℚ where the arithmetic happens. -/
structure Config where
  capacity : ℚ
  refill_rate : ℚ

/-- The per-key dict `{"tokens": ..., "last_refill": ...}`. -/
structure Bucket where
  tokens : ℚ
  last_refill : ℚ

/-- The `defaultdict` initializer: a fresh bucket is full. -/
def initialBucket (cfg : Config) (now : ℚ) : Bucket :=
  { tokens := cfg.capacity, last_refill := now }

/-- The values produced by one `is_allowed` call. -/
structure AllowResult where
  allowed : Bool
  bucket : Bucket

/-- Embedding of `TokenBucketRateLimiter.is_allowed`: the body under `self.lock` for one
key. -/
def is_allowed (cfg : Config) (now : ℚ) (b : Bucket) (tokens_required : ℚ) :
    AllowResult :=
  let time_elapsed := now - b.last_refill
  let tokens_to_add := time_elapsed * cfg.refill_rate
  let refilled := min cfg.capacity (b.tokens + tokens_to_add)
  if tokens_required ≤ refilled then
    { allowed := true,
      bucket := { tokens := refilled - tokens_required, last_refill := now } }
  else
    { allowed := false, bucket := { tokens := refilled, last_refill := now } }

/-- A serialized run of `is_allowed` calls against one key.  Each operation is
a pair (clock reading, `tokens_required`).  Returns the final bucket and the
token counts stored (and reported in `bucket_info`) after each call — the
observation points of the invariant. -/
def run (cfg : Config) : List (ℚ × ℚ) → Bucket → Bucket × List ℚ
  | [], b => (b, [])
  | op :: ops, b =>
    let r := is_allowed cfg op.1 b op.2
    let rest := run cfg ops r.bucket
    (rest.1, r.bucket.tokens :: rest.2)

end TokenBucket

/-! ### Proofs about the sliding-window limiter -/

namespace SlidingWindow

theorem evictOld_sublist (ws : ℚ) (l : List ℚ) : (evictOld ws l).Sublist l := by
  induction l with
  | nil => simp [evictOld]
  | cons t ts ih =>
    by_cases h : t < ws
    · simpa [evictOld, h] using ih.cons t
    · simp [evictOld, h]

theorem evictOld_eq_filter (ws : ℚ) (l : List ℚ)
    (hl : List.Sorted (· ≤ ·) l) :
    evictOld ws l = l.filter (fun t => decide (ws ≤ t)) := by
  induction l with
  | nil => simp [evictOld]
  | cons t ts ih =>
    rcases List.sorted_cons.mp hl with ⟨hts, hsorted⟩
    by_cases h : t < ws
    · have : ¬ ws ≤ t := not_le.mpr h
      simp [evictOld, h, this, ih hsorted]
    · have hwt : ws ≤ t := not_lt.mp h
      have : ts.filter (fun t => decide (ws ≤ t)) = ts :=
        List.filter_eq_self.mpr (fun a ha => by
          simpa using le_trans hwt (hts a ha))
      simp [evictOld, h, hwt, this]

/-- The run invariant tying the deque to the log of admitted timestamps:
after processing a call at clock `n`, the deque is exactly the admitted
events still inside the window, the admitted log is time-ordered and bounded
by the clock, the deque respects the capacity, and no trailing window
interval contains more than `max_requests` admitted events. -/
def Inv (cfg : Config) (n : ℚ) (q adm : List ℚ) : Prop :=
  List.Sorted (· ≤ ·) adm ∧
  (∀ t ∈ adm, t ≤ n) ∧
  q = adm.filter (fun t => decide (n - cfg.window_seconds ≤ t)) ∧
  q.length ≤ cfg.max_requests ∧
  ∀ s : ℚ,
    (adm.filter
      (fun t => decide (s < t) && decide (t ≤ s + cfg.window_seconds))).length
      ≤ cfg.max_requests

theorem inv_initial (cfg : Config) (n : ℚ) : Inv cfg n [] [] := by
  refine ⟨List.sorted_nil, by simp, by simp, by simp, by simp⟩

theorem inv_step (cfg : Config) {n nn : ℚ} {q adm : List ℚ}
    (hw : 0 ≤ cfg.window_seconds) (hle : n ≤ nn) (h : Inv cfg n q adm) :
    Inv cfg nn (step cfg (q, adm) nn).1 (step cfg (q, adm) nn).2 := by
  obtain ⟨hsorted, hbound, hfilter, hlen, hwin⟩ := h
  have hqsorted : List.Sorted (· ≤ ·) q := hfilter ▸ hsorted.filter _
  have hkey : n - cfg.window_seconds ≤ nn - cfg.window_seconds := by linarith
  have hreq : evictOld (nn - cfg.window_seconds) q
      = adm.filter (fun t => decide (nn - cfg.window_seconds ≤ t)) := by
    rw [evictOld_eq_filter _ _ hqsorted, hfilter, List.filter_filter]
    refine List.filter_congr (fun x _ => ?_)
    by_cases hx : nn - cfg.window_seconds ≤ x
    · simp [hx, le_trans hkey hx]
    · simp [hx]
  by_cases hall :
      (evictOld (nn - cfg.window_seconds) q).length < cfg.max_requests
  · -- the call is admitted
    simp only [step, is_allowed, hall, if_pos]
    constructor
    · -- sortedness of the extended admitted log
      refine List.pairwise_append.mpr ⟨hsorted, List.pairwise_singleton _ _, ?_⟩
      intro a ha b hb
      rw [List.mem_singleton] at hb
      exact hb ▸ le_trans (hbound a ha) hle
    refine ⟨?_, ?_, ?_, ?_⟩
    · intro t ht
      rcases List.mem_append.mp ht with ht | ht
      · exact le_trans (hbound t ht) hle
      · rw [List.mem_singleton] at ht; exact ht.le
    · -- deque = admitted events within the window
      rw [List.filter_append, hreq]
      have hsingle :
          List.filter (fun t => decide (nn - cfg.window_seconds ≤ t)) [nn] = [nn] := by
        simp only [List.filter_cons, List.filter_nil]
        rw [if_pos]
        simp only [decide_eq_true_eq]
        linarith
      rw [hsingle]
    · -- capacity after a successful admission
      simp only [List.length_append, List.length_cons, List.length_nil]
      omega
    · -- the trailing-window bound
      intro s
      by_cases hs : decide (s < nn) && decide (nn ≤ s + cfg.window_seconds)
      · -- the new event lands in the interval (s, s + window]
        have h1 : s < nn := by
          have := hs; simp only [Bool.and_eq_true, decide_eq_true_eq] at this
          exact this.1
        have h2 : nn ≤ s + cfg.window_seconds := by
          have := hs; simp only [Bool.and_eq_true, decide_eq_true_eq] at this
          exact this.2
        have hsub :
            ((adm ++ [nn]).filter
              (fun t => decide (s < t) && decide (t ≤ s + cfg.window_seconds))).Sublist
            ((adm ++ [nn]).filter
              (fun t => decide (nn - cfg.window_seconds ≤ t))) := by
          refine List.monotone_filter_right _ (fun a ha => ?_)
          simp only [Bool.and_eq_true, decide_eq_true_eq] at ha ⊢
          linarith [ha.1, ha.2]
        have hlenle := hsub.length_le
        have hNew : ((adm ++ [nn]).filter
            (fun t => decide (nn - cfg.window_seconds ≤ t))).length
            ≤ cfg.max_requests := by
          rw [List.filter_append]
          have hsingle :
              List.filter (fun t => decide (nn - cfg.window_seconds ≤ t)) [nn] = [nn] := by
            simp only [List.filter_cons, List.filter_nil]
            rw [if_pos]
            simp only [decide_eq_true_eq]
            linarith
          rw [hsingle, List.length_append]
          rw [hreq] at hall
          simp only [List.length_cons, List.length_nil]
          omega
        exact le_trans hlenle hNew
      · -- the new event is outside the interval: the count is unchanged
        rw [List.filter_append]
        have : ([nn].filter
            (fun t => decide (s < t) && decide (t ≤ s + cfg.window_seconds))) = [] := by
          simp only [List.filter_cons, List.filter_nil]
          rw [if_neg]
          simpa using hs
        rw [this, List.append_nil]
        exact hwin s
  · -- the call is rejected
    simp only [step, is_allowed, hall, if_neg, if_false]
    refine ⟨hsorted, fun t ht => le_trans (hbound t ht) hle, hreq, ?_, hwin⟩
    calc (evictOld (nn - cfg.window_seconds) q).length
        ≤ q.length := (evictOld_sublist _ _).length_le
      _ ≤ cfg.max_requests := hlen

theorem run_inv (cfg : Config) (hw : 0 ≤ cfg.window_seconds) :
    ∀ (calls : List ℚ) (n : ℚ) (q adm : List ℚ),
      Inv cfg n q adm → List.Chain (· ≤ ·) n calls →
      ∃ m : ℚ, Inv cfg m
        (calls.foldl (step cfg) (q, adm)).1
        (calls.foldl (step cfg) (q, adm)).2 := by
  intro calls
  induction calls with
  | nil => intro n q adm h _; exact ⟨n, by simpa using h⟩
  | cons c cs ih =>
    intro n q adm h hchain
    rcases List.chain_cons.mp hchain with ⟨hnc, hccs⟩
    have hstep := inv_step cfg hw hnc h
    have := ih c (step cfg (q, adm) c).1 (step cfg (q, adm) c).2 hstep hccs
    simpa using this

/-- C8 (claim): along any serialized, clock-monotone run of the sliding-window
limiter on one key, (1) for every trailing interval of length
`window_seconds`, at most `max_requests` of the admitted calls have their
timestamp inside it, and (2) after every prefix of the run — in particular
after every successful admission — the retained event deque has length at
most `max_requests`. -/
theorem sliding_window_admission_bound (cfg : Config) (calls : List ℚ)
    (hw : 0 ≤ cfg.window_seconds)
    (hmono : List.Chain' (· ≤ ·) calls) :
    (∀ s : ℚ,
      ((run cfg calls).2.filter
        (fun t => decide (s < t) && decide (t ≤ s + cfg.window_seconds))).length
        ≤ cfg.max_requests) ∧
    (∀ p r : List ℚ, calls = p ++ r →
      ((run cfg p).1).length ≤ cfg.max_requests) := by
  have main : ∀ l : List ℚ, List.Chain' (· ≤ ·) l →
      ((run cfg l).1).length ≤ cfg.max_requests ∧
      ∀ s : ℚ,
        ((run cfg l).2.filter
          (fun t => decide (s < t) && decide (t ≤ s + cfg.window_seconds))).length
          ≤ cfg.max_requests := by
    intro l hl
    cases l with
    | nil =>
      constructor
      · simp [run]
      · intro s; simp [run]
    | cons c cs =>
      have hchain : List.Chain (· ≤ ·) c (c :: cs) :=
        List.Chain.cons le_rfl hl
      obtain ⟨m, _, _, _, hlen, hwin⟩ :=
        run_inv cfg hw (c :: cs) c [] [] (inv_initial cfg c) hchain
      exact ⟨hlen, hwin⟩
  refine ⟨(main calls hmono).2, ?_⟩
  intro p r hpr
  have hp : List.Chain' (· ≤ ·) p := by
    subst hpr
    exact (List.chain'_append.mp hmono).1
  exact (main p hp).1

/-- Witness for C8 at a concrete run: limit 2 in a 60-second window, calls at
times 0, 1, 2 — the third call is the one the window rejects, and both bounds
hold. -/
theorem sliding_window_admission_bound_witness :
    (0 : ℚ) ≤ 60 ∧ List.Chain' (· ≤ ·) [(0 : ℚ), 1, 2] ∧
    ((∀ s : ℚ,
      ((run ⟨2, 60⟩ [(0 : ℚ), 1, 2]).2.filter
        (fun t => decide (s < t) && decide (t ≤ s + (60 : ℚ)))).length ≤ 2) ∧
    (∀ p r : List ℚ, [(0 : ℚ), 1, 2] = p ++ r →
      ((run ⟨2, 60⟩ p).1).length ≤ 2)) := by
  refine ⟨by norm_num, ?_, ?_⟩
  · refine List.chain'_cons.mpr ⟨by norm_num, List.chain'_cons.mpr ⟨by norm_num, ?_⟩⟩
    exact List.chain'_singleton _
  · exact sliding_window_admission_bound ⟨2, 60⟩ [0, 1, 2] (by norm_num)
      (List.chain'_cons.mpr ⟨by norm_num,
        List.chain'_cons.mpr ⟨by norm_num, List.chain'_singleton _⟩⟩)

end SlidingWindow

/-! ### Proofs about the token-bucket limiter -/

namespace TokenBucket

theorem run_range (cfg : Config) (hcap : 0 ≤ cfg.capacity)
    (hrate : 0 ≤ cfg.refill_rate) :
    ∀ (ops : List (ℚ × ℚ)) (b : Bucket),
      0 ≤ b.tokens → b.tokens ≤ cfg.capacity →
      (∀ op ∈ ops, 0 ≤ op.2) →
      List.Chain (· ≤ ·) b.last_refill (ops.map Prod.fst) →
      ∀ v ∈ (run cfg ops b).2, 0 ≤ v ∧ v ≤ cfg.capacity := by
  intro ops
  induction ops with
  | nil => intro b _ _ _ _ v hv; simp [run] at hv
  | cons op ops ih =>
    intro b h0 hcapb hcost hchain v hv
    rcases List.chain_cons.mp (by simpa using hchain) with ⟨hle, hrest⟩
    have helapsed : 0 ≤ (op.1 - b.last_refill) * cfg.refill_rate :=
      mul_nonneg (by linarith) hrate
    set refilled := min cfg.capacity (b.tokens + (op.1 - b.last_refill) * cfg.refill_rate) with hrefdef
    have href0 : 0 ≤ refilled := le_min hcap (by linarith)
    have hrefcap : refilled ≤ cfg.capacity := min_le_left _ _
    have hc : 0 ≤ op.2 := hcost op (List.mem_cons_self op ops)
    have hbucket :
        0 ≤ (is_allowed cfg op.1 b op.2).bucket.tokens ∧
        (is_allowed cfg op.1 b op.2).bucket.tokens ≤ cfg.capacity ∧
        (is_allowed cfg op.1 b op.2).bucket.last_refill = op.1 := by
      simp only [is_allowed]
      rw [← hrefdef]
      split
      · rename_i hok
        exact ⟨show 0 ≤ refilled - op.2 by linarith,
               show refilled - op.2 ≤ cfg.capacity by linarith, rfl⟩
      · exact ⟨show 0 ≤ refilled from href0,
               show refilled ≤ cfg.capacity from hrefcap, rfl⟩
    obtain ⟨hb0, hbcap, hblast⟩ := hbucket
    simp only [run, List.mem_cons] at hv
    rcases hv with hv | hv
    · exact hv ▸ ⟨hb0, hbcap⟩
    · refine ih (is_allowed cfg op.1 b op.2).bucket hb0 hbcap
        (fun o ho => hcost o (List.mem_cons_of_mem _ ho)) ?_ v hv
      rw [hblast]
      exact hrest

/-- C9 (claim): for every serialized sequence of token-bucket `is_allowed`
operations on one key — with non-negative costs and a non-decreasing clock
that starts no earlier than the creation of the bucket — the stored token count
lies in `[0, capacity]` at every observation point. -/
theorem token_bucket_tokens_in_range (cfg : Config) (t0 : ℚ)
    (ops : List (ℚ × ℚ))
    (hcap : 0 ≤ cfg.capacity) (hrate : 0 ≤ cfg.refill_rate)
    (hcost : ∀ op ∈ ops, 0 ≤ op.2)
    (hclock : List.Chain (· ≤ ·) t0 (ops.map Prod.fst)) :
    ∀ v ∈ (run cfg ops (initialBucket cfg t0)).2,
      0 ≤ v ∧ v ≤ cfg.capacity := by
  exact run_range cfg hcap hrate ops (initialBucket cfg t0)
    hcap le_rfl hcost hclock

/-- Witness for C9 at a concrete run: capacity 10, refill rate 2, created at
time 0, three calls. -/
theorem token_bucket_tokens_in_range_witness :
    (0 : ℚ) ≤ 10 ∧ (0 : ℚ) ≤ 2 ∧
    (∀ op ∈ [((1 : ℚ), (1 : ℚ)), (1, 4), (3, 2)], 0 ≤ op.2) ∧
    List.Chain (· ≤ ·) (0 : ℚ)
      ([((1 : ℚ), (1 : ℚ)), (1, 4), (3, 2)].map Prod.fst) ∧
    ∀ v ∈ (run ⟨10, 2⟩ [((1 : ℚ), (1 : ℚ)), (1, 4), (3, 2)]
        (initialBucket ⟨10, 2⟩ 0)).2,
      0 ≤ v ∧ v ≤ (10 : ℚ) := by
  have hcost : ∀ op ∈ [((1 : ℚ), (1 : ℚ)), (1, 4), (3, 2)], 0 ≤ op.2 := by
    intro op hop
    simp only [List.mem_cons, List.not_mem_nil, or_false] at hop
    rcases hop with h | h | h <;> subst h <;> norm_num
  have hchain : List.Chain (· ≤ ·) (0 : ℚ)
      ([((1 : ℚ), (1 : ℚ)), (1, 4), (3, 2)].map Prod.fst) := by
    simp only [List.map_cons, List.map_nil]
    exact List.Chain.cons (by norm_num)
      (List.Chain.cons (by norm_num)
        (List.Chain.cons (by norm_num) List.Chain.nil))
  exact ⟨by norm_num, by norm_num, hcost, hchain,
    token_bucket_tokens_in_range ⟨10, 2⟩ 0 _ (by norm_num) (by norm_num)
      hcost hchain⟩

end TokenBucket

/-! ## MD5

`generate_cache_key` hashes the normalized query with `hashlib.md5` and
renders `hexdigest()`.  The MD5 algorithm (RFC 1321) is embedded below over
byte lists, with 32-bit words represented as naturals reduced mod `2^32`.
The embedding is validated against the standard test vectors by the
`example`s after the definitions. -/

namespace MD5

/-- Truncation to a 32-bit word. -/
def u32 (n : Nat) : Nat := n % 4294967296

/-- 32-bit left rotation (the argument is already a 32-bit word). -/
def rotl (x s : Nat) : Nat := u32 ((x <<< s) ||| (x >>> (32 - s)))

/-- The per-round left-rotation amounts. -/
def sVals : List Nat :=
  [7, 12, 17, 22, 7, 12, 17, 22, 7, 12, 17, 22, 7, 12, 17, 22,
   5, 9, 14, 20, 5, 9, 14, 20, 5, 9, 14, 20, 5, 9, 14, 20,
   4, 11, 16, 23, 4, 11, 16, 23, 4, 11, 16, 23, 4, 11, 16, 23,
   6, 10, 15, 21, 6, 10, 15, 21, 6, 10, 15, 21, 6, 10, 15, 21]

/-- The per-round additive constants `floor(2^32 * abs(sin(i + 1)))`. -/
def kVals : List Nat :=
  [0xd76aa478, 0xe8c7b756, 0x242070db, 0xc1bdceee,
   0xf57c0faf, 0x4787c62a, 0xa8304613, 0xfd469501,
   0x698098d8, 0x8b44f7af, 0xffff5bb1, 0x895cd7be,
   0x6b901122, 0xfd987193, 0xa679438e, 0x49b40821,
   0xf61e2562, 0xc040b340, 0x265e5a51, 0xe9b6c7aa,
   0xd62f105d, 0x02441453, 0xd8a1e681, 0xe7d3fbc8,
   0x21e1cde6, 0xc33707d6, 0xf4d50d87, 0x455a14ed,
   0xa9e3e905, 0xfcefa3f8, 0x676f02d9, 0x8d2a4c8a,
   0xfffa3942, 0x8771f681, 0x6d9d6122, 0xfde5380c,
   0xa4beea44, 0x4bdecfa9, 0xf6bb4b60, 0xbebfbc70,
   0x289b7ec6, 0xeaa127fa, 0xd4ef3085, 0x04881d05,
   0xd9d4d039, 0xe6db99e5, 0x1fa27cf8, 0xc4ac5665,
   0xf4292244, 0x432aff97, 0xab9423a7, 0xfc93a039,
   0x655b59c3, 0x8f0ccc92, 0xffeff47d, 0x85845dd1,
   0x6fa87e4f, 0xfe2ce6e0, 0xa3014314, 0x4e0811a1,
   0xf7537e82, 0xbd3af235, 0x2ad7d2bb, 0xeb86d391]

/-- The four-word internal state. -/
structure Digest where
  a : Nat
  b : Nat
  c : Nat
  d : Nat

/-- One of the 64 rounds applied to a chunk; `m` gives the 16
little-endian message words. -/
def mixRound (m : Nat → Nat) (st : Digest) (i : Nat) : Digest :=
  let f :=
    if i < 16 then (st.b &&& st.c) ||| ((st.b ^^^ 0xffffffff) &&& st.d)
    else if i < 32 then (st.d &&& st.b) ||| ((st.d ^^^ 0xffffffff) &&& st.c)
    else if i < 48 then st.b ^^^ st.c ^^^ st.d
    else st.c ^^^ (st.b ||| (st.d ^^^ 0xffffffff))
  let g :=
    if i < 16 then i
    else if i < 32 then (5 * i + 1) % 16
    else if i < 48 then (3 * i + 5) % 16
    else (7 * i) % 16
  let f2 := u32 (f + st.a + kVals.getD i 0 + m g)
  { a := st.d, b := u32 (st.b + rotl f2 (sVals.getD i 0)), c := st.b, d := st.c }

/-- Message word `g` of a 64-byte chunk, little-endian. -/
def leWord (bytes : List Nat) (g : Nat) : Nat :=
  bytes.getD (4 * g) 0 + 256 * (bytes.getD (4 * g + 1) 0 +
    256 * (bytes.getD (4 * g + 2) 0 + 256 * bytes.getD (4 * g + 3) 0))

/-- Process one 64-byte chunk. -/
def processChunk (st : Digest) (chunk : List Nat) : Digest :=
  let r := (List.range 64).foldl (mixRound (leWord chunk)) st
  { a := u32 (st.a + r.a), b := u32 (st.b + r.b),
    c := u32 (st.c + r.c), d := u32 (st.d + r.d) }

/-- Split into 64-byte chunks; the fuel (initially the length) makes the
recursion structural so that concrete digests reduce inside the kernel. -/
def chunksGo : Nat → List Nat → List (List Nat)
  | 0, _ => []
  | _, [] => []
  | fuel + 1, l => l.take 64 :: chunksGo fuel (l.drop 64)

def chunks64 (l : List Nat) : List (List Nat) := chunksGo l.length l

/-- The `k` low-order bytes of `n`, little-endian. -/
def leBytes : Nat → Nat → List Nat
  | 0, _ => []
  | k + 1, n => n % 256 :: leBytes k (n / 256)

/-- MD5 padding: a `0x80` byte, zeros to 56 mod 64, then the bit length as a
64-bit little-endian quantity. -/
def pad (msg : List Nat) : List Nat :=
  let len := msg.length
  let zeros := (119 - len % 64) % 64
  msg ++ [0x80] ++ List.replicate zeros 0 ++ leBytes 8 (len * 8)

def initDigest : Digest :=
  { a := 0x67452301, b := 0xefcdab89, c := 0x98badcfe, d := 0x10325476 }

/-- The 16-byte MD5 digest of a byte string. -/
def md5Bytes (msg : List Nat) : List Nat :=
  let final := (chunks64 (pad msg)).foldl processChunk initDigest
  leBytes 4 final.a ++ leBytes 4 final.b ++ leBytes 4 final.c ++ leBytes 4 final.d

/-- Lower-case hex digit, as `hexdigest()` renders. -/
def hexDigitChar (n : Nat) : Char :=
  if n < 10 then Char.ofNat (48 + n) else Char.ofNat (87 + n)

def byteToHex (b : Nat) : List Char := [hexDigitChar (b / 16), hexDigitChar (b % 16)]

/-- Embedding of `hashlib.md5(msg).hexdigest()`. -/
def hexdigest (msg : List Nat) : List Char := ((md5Bytes msg).map byteToHex).flatten

end MD5

/-- UTF-8 encoding of a code point, for `str.encode("utf-8")`. -/
def utf8Bytes (c : Char) : List Nat :=
  let n := c.toNat
  if n < 128 then [n]
  else if n < 2048 then [192 + n / 64, 128 + n % 64]
  else if n < 65536 then
    [224 + n / 4096, 128 + (n / 64) % 64, 128 + n % 64]
  else
    [240 + n / 262144, 128 + (n / 4096) % 64, 128 + (n / 64) % 64, 128 + n % 64]

def encodeUtf8 (s : List Char) : List Nat := (s.map utf8Bytes).flatten

example : MD5.hexdigest (encodeUtf8 "".data)
    = "d41d8cd98f00b204e9800998ecf8427e".data := by rfl

example : MD5.hexdigest (encodeUtf8 "abc".data)
    = "900150983cd24fb0d6963f7d28e17f72".data := by rfl

/-! ## Query normalization and cache keys

Embedding of `CacheService.normalize_query` and
`CacheService.generate_cache_key` (`backend/services/cache_service.py`,
lines 46-92).  Python strings are modelled as `List Char`.  The regular
expression character classes `\s` and `\w` are modelled by their ASCII
fragments (queries are treated as ASCII text; `str.lower` is modelled by
`Char.toLower`, which lower-cases exactly the basic latin letters). -/

/-- The characters matched by the regex class `\s` (ASCII fragment). -/
def isPySpace (c : Char) : Bool :=
  c = ' ' || c = '\t' || c = '\n' || c = '\r' || c = '\x0b' || c = '\x0c'

/-- Embedding of `str.strip()`: remove leading and trailing whitespace. -/
def pyStrip (s : List Char) : List Char :=
  ((s.dropWhile isPySpace).reverse.dropWhile isPySpace).reverse

/-- Embedding of `re.sub(r"\s+", " ", s)`: replace every maximal run of whitespace by a
single space. -/
def collapseWs : List Char → List Char
  | [] => []
  | [c] => if isPySpace c then [' '] else [c]
  | c :: c2 :: cs =>
    if isPySpace c && isPySpace c2 then collapseWs (c2 :: cs)
    else (if isPySpace c then ' ' else c) :: collapseWs (c2 :: cs)

/-- The characters matched by the regex class `\w` (ASCII fragment). -/
def isWordChar (c : Char) : Bool := c.isAlphanum || c = '_'

/-- The characters kept by `re.sub(r"[^\w\s-]", "", s)`. -/
def keepChar (c : Char) : Bool := isWordChar c || isPySpace c || c = '-'

/-- Embedding of `str.split()` (split on whitespace runs, dropping empty parts):
worker with the current in-progress token accumulated in reverse. -/
def splitWsGo : List Char → List Char → List (List Char)
  | [], acc => if acc.isEmpty then [] else [acc.reverse]
  | c :: cs, acc =>
    if isPySpace c then
      if acc.isEmpty then splitWsGo cs [] else acc.reverse :: splitWsGo cs []
    else splitWsGo cs (c :: acc)

def pySplit (s : List Char) : List (List Char) := splitWsGo s []

/-- The stop-word set of `normalize_query`. -/
def stop_words : List (List Char) :=
  ["the", "a", "an", "and", "or", "but", "in", "on", "at", "to", "for",
   "of", "with", "by", "about", "into", "through", "during", "before",
   "after", "above", "below", "up", "down", "out", "off", "over",
   "under", "again", "further", "then", "once"].map String.data

/-- Embedding of `CacheService.normalize_query`.  Python `list.sort()` on strings orders
by the lexicographic code-point order, which is exactly `≤` on `List Char`;
since equal keys are identical strings, any sort into that order computes
the same list, and the structurally recursive `insertionSort` is used so
that concrete keys reduce inside the kernel. -/
def normalize_query (query : List Char) : List Char :=
  let lowered := pyStrip (query.map Char.toLower)
  let collapsed := collapseWs lowered
  let cleaned := collapsed.filter keepChar
  let words := pySplit cleaned
  let filtered_words := words.filter (fun w => !(stop_words.contains w))
  let sorted_words := List.insertionSort (· ≤ ·) filtered_words
  List.intercalate [' '] sorted_words

/-- Embedding of `CacheService.generate_cache_key`:
`hashlib.md5(normalized.encode("utf-8")).hexdigest()`. -/
def generate_cache_key (query : List Char) : List Char :=
  MD5.hexdigest (encodeUtf8 (normalize_query query))

example : normalize_query "  Machine   Learning, Algorithms!".data
    = "algorithms learning machine".data := by rfl

example : normalize_query "The quick brown fox jumps OVER the lazy dog!!".data
    = "brown dog fox jumps lazy quick".data := by rfl

example : normalize_query "state-of-the-art AI_systems... (2024)".data
    = "2024 ai_systems state-of-the-art".data := by rfl

example : normalize_query "a the and".data = [] := by rfl

example : generate_cache_key "  Machine   Learning, Algorithms!".data
    = "cc99549946922eccc501389a139094b9".data := by rfl

/-! ### Character-level facts about the normalization pipeline -/

theorem char_toNat_ofNat {n : Nat} (h : n < 55296) : (Char.ofNat n).toNat = n := by
  rw [Char.ofNat, dif_pos (Or.inl h)]
  rfl

theorem char_eq_iff_toNat {a b : Char} : a = b ↔ a.toNat = b.toNat := by
  constructor
  · rintro rfl; rfl
  · intro h
    apply Char.eq_of_val_eq
    apply UInt32.toNat.inj
    exact h

theorem isPySpace_iff {c : Char} :
    isPySpace c = true ↔
      c.toNat = 32 ∨ c.toNat = 9 ∨ c.toNat = 10 ∨ c.toNat = 13 ∨
      c.toNat = 11 ∨ c.toNat = 12 := by
  have e1 : (' ' : Char).toNat = 32 := rfl
  have e2 : ('\t' : Char).toNat = 9 := rfl
  have e3 : ('\n' : Char).toNat = 10 := rfl
  have e4 : ('\r' : Char).toNat = 13 := rfl
  have e5 : ('\x0b' : Char).toNat = 11 := rfl
  have e6 : ('\x0c' : Char).toNat = 12 := rfl
  simp only [isPySpace, Bool.or_eq_true, decide_eq_true_eq, char_eq_iff_toNat,
    e1, e2, e3, e4, e5, e6]
  tauto

theorem toLower_of_upper {c : Char} (h1 : 65 ≤ c.toNat) (h2 : c.toNat ≤ 90) :
    (Char.toLower c).toNat = c.toNat + 32 := by
  simp only [Char.toLower]
  rw [if_pos ⟨h1, h2⟩]
  exact char_toNat_ofNat (by omega)

theorem toLower_of_not_upper {c : Char} (h : ¬(65 ≤ c.toNat ∧ c.toNat ≤ 90)) :
    Char.toLower c = c := by
  simp only [Char.toLower]
  rw [if_neg]
  exact fun hc => h ⟨hc.1, hc.2⟩

theorem toLower_idem (c : Char) :
    Char.toLower (Char.toLower c) = Char.toLower c := by
  by_cases h : 65 ≤ c.toNat ∧ c.toNat ≤ 90
  · have hlow := toLower_of_upper h.1 h.2
    exact toLower_of_not_upper (by omega)
  · rw [toLower_of_not_upper h]
    exact toLower_of_not_upper h

theorem isPySpace_toLower (c : Char) :
    isPySpace (Char.toLower c) = isPySpace c := by
  by_cases h : 65 ≤ c.toNat ∧ c.toNat ≤ 90
  · have hlow := toLower_of_upper h.1 h.2
    have h1 : isPySpace (Char.toLower c) = false := by
      rw [← Bool.not_eq_true, isPySpace_iff]
      omega
    have h2 : isPySpace c = false := by
      rw [← Bool.not_eq_true, isPySpace_iff]
      omega
    rw [h1, h2]
  · rw [toLower_of_not_upper h]

theorem toLower_space : Char.toLower ' ' = ' ' :=
  toLower_of_not_upper (by simp)

theorem not_isPySpace_space : isPySpace ' ' = true := by decide

/-! ### Token-level factorization of `normalize_query`

`" ".join(tokens)`, recast structurally so that the pipeline stages can be
peeled off a token list one token at a time. -/

def joinTokens : List (List Char) → List Char
  | [] => []
  | [w] => w
  | w :: ws => w ++ ' ' :: joinTokens ws

theorem intercalate_eq_joinTokens :
    ∀ ws : List (List Char), List.intercalate [' '] ws = joinTokens ws
  | [] => by simp [joinTokens, List.intercalate]
  | [w] => by simp [joinTokens, List.intercalate]
  | w :: v :: ws => by
    have ih := intercalate_eq_joinTokens (v :: ws)
    simp only [List.intercalate, List.intersperse] at ih ⊢
    simp only [List.flatten_cons, joinTokens]
    rw [← ih]
    simp

/-- A list of genuine tokens: each is non-empty and free of whitespace. -/
def GoodTokens (ws : List (List Char)) : Prop :=
  ∀ w ∈ ws, w ≠ [] ∧ ∀ c ∈ w, isPySpace c = false

/-- The per-token effect of the character-level pipeline stages: lower-case
then strip the characters discarded by the punctuation regex. -/
def cleanTok (w : List Char) : List Char :=
  (w.map Char.toLower).filter keepChar

theorem map_joinTokens (f : Char → Char) (hf : f ' ' = ' ') :
    ∀ ws : List (List Char),
      (joinTokens ws).map f = joinTokens (ws.map (List.map f))
  | [] => by simp [joinTokens]
  | [w] => by simp [joinTokens]
  | w :: v :: ws => by
    have ih := map_joinTokens f hf (v :: ws)
    simp only [joinTokens, List.map_cons, List.map_append] at ih ⊢
    rw [ih, hf]

theorem goodTokens_map_toLower {ws : List (List Char)} (h : GoodTokens ws) :
    GoodTokens (ws.map (List.map Char.toLower)) := by
  intro w hw
  rcases List.mem_map.mp hw with ⟨v, hv, rfl⟩
  obtain ⟨hne, hchars⟩ := h v hv
  refine ⟨by simpa using hne, ?_⟩
  intro c hc
  rcases List.mem_map.mp hc with ⟨d, hd, rfl⟩
  rw [isPySpace_toLower]
  exact hchars d hd

theorem joinTokens_head {ws : List (List Char)} (h : GoodTokens ws)
    (hne : ws ≠ []) :
    ∃ c rest, joinTokens ws = c :: rest ∧ isPySpace c = false := by
  match ws with
  | [] => exact absurd rfl hne
  | [w] =>
    obtain ⟨hwne, hchars⟩ := h w (List.mem_singleton_self w)
    match w, hwne with
    | c :: rest, _ =>
      exact ⟨c, rest, rfl, hchars c (List.mem_cons_self c rest)⟩
  | w :: v :: ws =>
    obtain ⟨hwne, hchars⟩ := h w (List.mem_cons_self _ _)
    match w, hwne, hchars with
    | c :: w2, _, hchars =>
      exact ⟨c, w2 ++ ' ' :: joinTokens (v :: ws), rfl,
        hchars c (List.mem_cons_self c w2)⟩

theorem joinTokens_reverse_head {ws : List (List Char)} (h : GoodTokens ws)
    (hne : ws ≠ []) :
    ∃ c rest, (joinTokens ws).reverse = c :: rest ∧ isPySpace c = false := by
  induction ws with
  | nil => exact absurd rfl hne
  | cons w ws ih =>
    match ws with
    | [] =>
      obtain ⟨hwne, hchars⟩ := h w (List.mem_singleton_self w)
      have : w.reverse ≠ [] := by simpa using hwne
      match hrev : w.reverse, this with
      | c :: rest, _ =>
        refine ⟨c, rest, rfl, ?_⟩
        have : c ∈ w.reverse := by rw [hrev]; exact List.mem_cons_self c rest
        exact hchars c (List.mem_reverse.mp this)
    | v :: ws2 =>
      have hgood : GoodTokens (v :: ws2) := fun u hu =>
        h u (List.mem_cons_of_mem _ hu)
      obtain ⟨c, rest, hrev, hc⟩ := ih hgood (by simp)
      refine ⟨c, rest ++ (' ' :: w.reverse), ?_, hc⟩
      have : joinTokens (w :: v :: ws2) = w ++ ' ' :: joinTokens (v :: ws2) := rfl
      rw [this, List.reverse_append, List.reverse_cons, hrev]
      simp

theorem pyStrip_joinTokens {ws : List (List Char)} (h : GoodTokens ws) :
    pyStrip (joinTokens ws) = joinTokens ws := by
  match hws : ws with
  | [] => rfl
  | w :: ws2 =>
    obtain ⟨c, rest, hhead, hc⟩ := joinTokens_head h (by simp)
    obtain ⟨d, rest2, hrev, hd⟩ := joinTokens_reverse_head h (by simp)
    unfold pyStrip
    rw [hhead, List.dropWhile_cons, if_neg (by simp [hc]), ← hhead, hrev,
      List.dropWhile_cons, if_neg (by simp [hd]), ← hrev,
      List.reverse_reverse]

theorem collapseWs_append_noSpace {w : List Char}
    (hw : ∀ c ∈ w, isPySpace c = false) :
    ∀ s, collapseWs (w ++ s) = w ++ collapseWs s := by
  induction w with
  | nil => intro s; simp
  | cons c w2 ih =>
    intro s
    have hc : isPySpace c = false := hw c (List.mem_cons_self _ _)
    have hw2 : ∀ e ∈ w2, isPySpace e = false := fun e he =>
      hw e (List.mem_cons_of_mem _ he)
    match hrest : w2 ++ s with
    | [] =>
      rcases List.append_eq_nil.mp hrest with ⟨rfl, rfl⟩
      simp [collapseWs, hc]
    | y :: ys =>
      have : collapseWs (c :: y :: ys)
          = c :: collapseWs (y :: ys) := by
        rw [collapseWs]
        rw [if_neg (by simp [hc])]
        simp [hc]
      calc collapseWs ((c :: w2) ++ s) = collapseWs (c :: y :: ys) := by
            rw [List.cons_append, hrest]
        _ = c :: collapseWs (y :: ys) := this
        _ = c :: collapseWs (w2 ++ s) := by rw [← hrest]
        _ = c :: (w2 ++ collapseWs s) := by rw [ih hw2]
        _ = (c :: w2) ++ collapseWs s := rfl

theorem collapseWs_joinTokens {ws : List (List Char)} (h : GoodTokens ws) :
    collapseWs (joinTokens ws) = joinTokens ws := by
  induction ws with
  | nil => rfl
  | cons w ws2 ih =>
    obtain ⟨hwne, hchars⟩ := h w (List.mem_cons_self _ _)
    match ws2 with
    | [] =>
      have : joinTokens [w] = w ++ [] := by simp [joinTokens]
      rw [this, collapseWs_append_noSpace hchars]
      rfl
    | v :: ws3 =>
      have hgood : GoodTokens (v :: ws3) := fun u hu =>
        h u (List.mem_cons_of_mem _ hu)
      obtain ⟨c, rest, hhead, hc⟩ := joinTokens_head hgood (by simp)
      have hjoin : joinTokens (w :: v :: ws3)
          = w ++ ' ' :: joinTokens (v :: ws3) := rfl
      rw [hjoin, collapseWs_append_noSpace hchars, hhead]
      have : collapseWs (' ' :: c :: rest) = ' ' :: collapseWs (c :: rest) := by
        rw [collapseWs]
        rw [if_neg (by simp [hc])]
        simp
      rw [this, ← hhead, ih hgood]

theorem keepChar_space : keepChar ' ' = true := by decide

theorem filter_keepChar_joinTokens :
    ∀ ws : List (List Char),
      (joinTokens ws).filter keepChar
        = joinTokens (ws.map (List.filter keepChar))
  | [] => by simp [joinTokens]
  | [w] => by simp [joinTokens]
  | w :: v :: ws => by
    have ih := filter_keepChar_joinTokens (v :: ws)
    show (w ++ ' ' :: joinTokens (v :: ws)).filter keepChar
        = w.filter keepChar ++ ' ' :: joinTokens ((v :: ws).map (List.filter keepChar))
    rw [List.filter_append, List.filter_cons, if_pos keepChar_space, ih]

theorem splitWsGo_append_noSpace {w : List Char}
    (hw : ∀ c ∈ w, isPySpace c = false) :
    ∀ s acc, splitWsGo (w ++ s) acc = splitWsGo s (w.reverse ++ acc) := by
  induction w with
  | nil => intro s acc; simp
  | cons c w2 ih =>
    intro s acc
    have hc : isPySpace c = false := hw c (List.mem_cons_self _ _)
    have hw2 : ∀ e ∈ w2, isPySpace e = false := fun e he =>
      hw e (List.mem_cons_of_mem _ he)
    show splitWsGo (c :: (w2 ++ s)) acc = _
    rw [splitWsGo]
    rw [if_neg (by simp [hc])]
    rw [ih hw2 s (c :: acc)]
    congr 1
    simp

theorem pySplit_joinTokens :
    ∀ ts : List (List Char),
      (∀ w ∈ ts, ∀ c ∈ w, isPySpace c = false) →
      pySplit (joinTokens ts) = ts.filter (fun w => !w.isEmpty)
  | [], _ => rfl
  | [w], h => by
    have hw : ∀ c ∈ w, isPySpace c = false := h w (List.mem_singleton_self w)
    show splitWsGo (joinTokens [w]) [] = _
    have : joinTokens [w] = w ++ [] := by simp [joinTokens]
    rw [this, splitWsGo_append_noSpace hw]
    show (if (w.reverse ++ []).isEmpty then [] else [(w.reverse ++ []).reverse]) = _
    match w with
    | [] => rfl
    | c :: w2 => simp
  | w :: v :: ts, h => by
    have hw : ∀ c ∈ w, isPySpace c = false := h w (List.mem_cons_self _ _)
    have hrest : ∀ u ∈ (v :: ts), ∀ c ∈ u, isPySpace c = false := fun u hu =>
      h u (List.mem_cons_of_mem _ hu)
    have ih := pySplit_joinTokens (v :: ts) hrest
    show splitWsGo (joinTokens (w :: v :: ts)) [] = _
    have hjoin : joinTokens (w :: v :: ts)
        = w ++ ' ' :: joinTokens (v :: ts) := rfl
    rw [hjoin, splitWsGo_append_noSpace hw]
    show splitWsGo (' ' :: joinTokens (v :: ts)) (w.reverse ++ []) = _
    rw [splitWsGo]
    rw [if_pos not_isPySpace_space]
    match w with
    | [] => simpa using ih
    | c :: w2 =>
      have : ((c :: w2).reverse ++ []).isEmpty = false := by simp
      rw [this]
      simp only [Bool.false_eq_true, if_false]
      have hrr : ((c :: w2).reverse ++ []).reverse = c :: w2 := by simp
      rw [hrr]
      have hps : splitWsGo (joinTokens (v :: ts)) []
          = List.filter (fun w => !w.isEmpty) (v :: ts) := ih
      rw [hps]
      simp [List.filter_cons]

/-! ### Soundness of the split and membership through the pipeline -/

theorem splitWsGo_sound :
    ∀ (s acc : List Char), (∀ c ∈ acc, isPySpace c = false) →
      ∀ w ∈ splitWsGo s acc,
        w ≠ [] ∧ ∀ c ∈ w, isPySpace c = false ∧ (c ∈ acc ∨ c ∈ s)
  | [], acc, hacc => by
    intro w hw
    rw [splitWsGo] at hw
    by_cases hev : acc.isEmpty
    · rw [if_pos hev] at hw; simp at hw
    · rw [if_neg hev] at hw
      rw [List.mem_singleton] at hw
      subst hw
      refine ⟨by simpa [List.isEmpty_iff] using hev, ?_⟩
      intro c hc
      rw [List.mem_reverse] at hc
      exact ⟨hacc c hc, Or.inl hc⟩
  | d :: s, acc, hacc => by
    intro w hw
    rw [splitWsGo] at hw
    by_cases hd : isPySpace d
    · rw [if_pos hd] at hw
      by_cases hev : acc.isEmpty
      · rw [if_pos hev] at hw
        obtain ⟨hne, hchars⟩ := splitWsGo_sound s [] (by simp) w hw
        exact ⟨hne, fun c hc =>
          ⟨(hchars c hc).1,
           Or.inr (List.mem_cons_of_mem d ((hchars c hc).2.resolve_left (by simp)))⟩⟩
      · rw [if_neg hev] at hw
        rcases List.mem_cons.mp hw with rfl | hw2
        · refine ⟨by simpa [List.isEmpty_iff] using hev, ?_⟩
          intro c hc
          rw [List.mem_reverse] at hc
          exact ⟨hacc c hc, Or.inl hc⟩
        · obtain ⟨hne, hchars⟩ := splitWsGo_sound s [] (by simp) w hw2
          exact ⟨hne, fun c hc =>
            ⟨(hchars c hc).1,
             Or.inr (List.mem_cons_of_mem d ((hchars c hc).2.resolve_left (by simp)))⟩⟩
    · rw [if_neg hd] at hw
      have hacc2 : ∀ c ∈ (d :: acc), isPySpace c = false := by
        intro c hc
        rcases List.mem_cons.mp hc with rfl | hc2
        · simpa using hd
        · exact hacc c hc2
      obtain ⟨hne, hchars⟩ := splitWsGo_sound s (d :: acc) hacc2 w hw
      refine ⟨hne, fun c hc => ⟨(hchars c hc).1, ?_⟩⟩
      rcases (hchars c hc).2 with hin | hin
      · rcases List.mem_cons.mp hin with rfl | hin2
        · exact Or.inr (List.mem_cons_self _ _)
        · exact Or.inl hin2
      · exact Or.inr (List.mem_cons_of_mem d hin)

theorem collapseWs_subset :
    ∀ s : List Char, ∀ c ∈ collapseWs s, c = ' ' ∨ c ∈ s
  | [] => by intro c hc; simp [collapseWs] at hc
  | [d] => by
    intro c hc
    rw [collapseWs] at hc
    by_cases hd : isPySpace d
    · rw [if_pos hd] at hc
      rw [List.mem_singleton] at hc
      exact Or.inl hc
    · rw [if_neg hd] at hc
      rw [List.mem_singleton] at hc
      exact Or.inr (hc ▸ List.mem_cons_self d [])
  | d :: d2 :: ds => by
    intro c hc
    rw [collapseWs] at hc
    by_cases hboth : isPySpace d && isPySpace d2
    · rw [if_pos hboth] at hc
      rcases collapseWs_subset (d2 :: ds) c hc with h | h
      · exact Or.inl h
      · exact Or.inr (List.mem_cons_of_mem d h)
    · rw [if_neg hboth] at hc
      rcases List.mem_cons.mp hc with rfl | hc2
      · by_cases hd : isPySpace d
        · rw [if_pos hd]; exact Or.inl rfl
        · rw [if_neg hd]; exact Or.inr (List.mem_cons_self d _)
      · rcases collapseWs_subset (d2 :: ds) c hc2 with h | h
        · exact Or.inl h
        · exact Or.inr (List.mem_cons_of_mem d h)

theorem pyStrip_subset {s : List Char} : ∀ c ∈ pyStrip s, c ∈ s := by
  intro c hc
  unfold pyStrip at hc
  rw [List.mem_reverse] at hc
  have h1 := (List.dropWhile_sublist isPySpace).subset hc
  rw [List.mem_reverse] at h1
  exact (List.dropWhile_sublist isPySpace).subset h1

/-- Every character of the cleaned string (after lower-casing, stripping,
whitespace collapse and punctuation removal) is kept by `keepChar` and is a
fixed point of `Char.toLower`. -/
theorem cleaned_chars (q : List Char) :
    ∀ c ∈ (collapseWs (pyStrip (q.map Char.toLower))).filter keepChar,
      keepChar c = true ∧ Char.toLower c = c := by
  intro c hc
  rcases List.mem_filter.mp hc with ⟨hmem, hkeep⟩
  refine ⟨hkeep, ?_⟩
  rcases collapseWs_subset _ c hmem with rfl | hmem2
  · exact toLower_space
  · have h3 : c ∈ q.map Char.toLower := pyStrip_subset c hmem2
    rcases List.mem_map.mp h3 with ⟨d, _, rfl⟩
    exact toLower_idem d

/-! ### Sorting helpers -/

theorem insertionSort_eq_of_perm {A B : List (List Char)} (hAB : A.Perm B) :
    List.insertionSort (· ≤ ·) A = List.insertionSort (· ≤ ·) B := by
  refine List.eq_of_perm_of_sorted ?_
    (List.sorted_insertionSort _ A) (List.sorted_insertionSort _ B)
  exact (List.perm_insertionSort _ A).trans
    (hAB.trans (List.perm_insertionSort _ B).symm)

theorem insertionSort_eq_self {A : List (List Char)}
    (h : List.Sorted (· ≤ ·) A) : List.insertionSort (· ≤ ·) A = A :=
  List.eq_of_perm_of_sorted (List.perm_insertionSort _ A)
    (List.sorted_insertionSort _ A) h

/-! ### The token-level factorization of `normalize_query` -/

theorem cleanTok_noSpace {ws : List (List Char)} (h : GoodTokens ws) :
    ∀ w ∈ ws.map cleanTok, ∀ c ∈ w, isPySpace c = false := by
  intro w hw c hc
  rcases List.mem_map.mp hw with ⟨v, hv, rfl⟩
  rcases List.mem_filter.mp hc with ⟨hmem, _⟩
  rcases List.mem_map.mp hmem with ⟨d, hd, rfl⟩
  rw [isPySpace_toLower]
  exact (h v hv).2 d hd

theorem normalize_joinTokens {ws : List (List Char)} (h : GoodTokens ws) :
    normalize_query (joinTokens ws)
      = List.intercalate [' ']
          (List.insertionSort (· ≤ ·)
            (((ws.map cleanTok).filter (fun w => !w.isEmpty)).filter
              (fun w => !(stop_words.contains w)))) := by
  have h1 : (joinTokens ws).map Char.toLower
      = joinTokens (ws.map (List.map Char.toLower)) :=
    map_joinTokens Char.toLower toLower_space ws
  have hgood2 := goodTokens_map_toLower h
  have h2 := pyStrip_joinTokens hgood2
  have h3 := collapseWs_joinTokens hgood2
  have h4 := filter_keepChar_joinTokens (ws.map (List.map Char.toLower))
  have h5 : (ws.map (List.map Char.toLower)).map (List.filter keepChar)
      = ws.map cleanTok := by
    rw [List.map_map]; rfl
  have h6 := pySplit_joinTokens (ws.map cleanTok) (cleanTok_noSpace h)
  show List.intercalate [' ']
      (List.insertionSort (· ≤ ·)
        ((pySplit ((collapseWs (pyStrip ((joinTokens ws).map Char.toLower))).filter
            keepChar)).filter (fun w => !(stop_words.contains w)))) = _
  rw [h1, h2, h3, h4, h5, h6]

/-! ### The digest is always 32 lower-case hex characters -/

theorem leBytes_length : ∀ (k n : Nat), (MD5.leBytes k n).length = k
  | 0, _ => rfl
  | k + 1, n => by
    show (n % 256 :: MD5.leBytes k (n / 256)).length = k + 1
    rw [List.length_cons, leBytes_length k]

theorem leBytes_lt : ∀ (k n : Nat), ∀ x ∈ MD5.leBytes k n, x < 256
  | 0, _ => by intro x hx; simp [MD5.leBytes] at hx
  | k + 1, n => by
    intro x hx
    rcases List.mem_cons.mp hx with rfl | hx2
    · exact Nat.mod_lt n (by omega)
    · exact leBytes_lt k (n / 256) x hx2

theorem md5Bytes_length (m : List Nat) : (MD5.md5Bytes m).length = 16 := by
  show (MD5.leBytes 4 _ ++ MD5.leBytes 4 _ ++ MD5.leBytes 4 _ ++ MD5.leBytes 4 _).length = 16
  simp [leBytes_length]

theorem md5Bytes_lt (m : List Nat) : ∀ b ∈ MD5.md5Bytes m, b < 256 := by
  intro b hb
  have : b ∈ MD5.leBytes 4 ((MD5.chunks64 (MD5.pad m)).foldl MD5.processChunk MD5.initDigest).a
      ∨ b ∈ MD5.leBytes 4 ((MD5.chunks64 (MD5.pad m)).foldl MD5.processChunk MD5.initDigest).b
      ∨ b ∈ MD5.leBytes 4 ((MD5.chunks64 (MD5.pad m)).foldl MD5.processChunk MD5.initDigest).c
      ∨ b ∈ MD5.leBytes 4 ((MD5.chunks64 (MD5.pad m)).foldl MD5.processChunk MD5.initDigest).d := by
    have hb2 : b ∈ (MD5.leBytes 4 _ ++ MD5.leBytes 4 _ ++ MD5.leBytes 4 _ ++ MD5.leBytes 4 _) := hb
    simpa [List.mem_append, or_assoc] using hb2
  rcases this with h | h | h | h <;> exact leBytes_lt 4 _ b h

theorem flatten_hex_length :
    ∀ l : List Nat, ((l.map MD5.byteToHex).flatten).length = 2 * l.length
  | [] => rfl
  | b :: l => by
    show (MD5.byteToHex b ++ (l.map MD5.byteToHex).flatten).length = 2 * (l.length + 1)
    rw [List.length_append, flatten_hex_length l]
    show 2 + 2 * l.length = 2 * (l.length + 1)
    omega

theorem hexdigest_length (m : List Nat) : (MD5.hexdigest m).length = 32 := by
  show ((MD5.md5Bytes m).map MD5.byteToHex).flatten.length = 32
  rw [flatten_hex_length, md5Bytes_length]

theorem hexDigitChar_mem : ∀ n < 16, MD5.hexDigitChar n ∈ "0123456789abcdef".data := by
  decide

theorem hexdigest_chars (m : List Nat) :
    ∀ c ∈ MD5.hexdigest m, c ∈ "0123456789abcdef".data := by
  intro c hc
  have : c ∈ ((MD5.md5Bytes m).map MD5.byteToHex).flatten := hc
  rw [List.mem_flatten] at this
  obtain ⟨l, hl, hcl⟩ := this
  rcases List.mem_map.mp hl with ⟨b, hb, rfl⟩
  have hblt := md5Bytes_lt m b hb
  rcases List.mem_cons.mp hcl with rfl | hcl2
  · exact hexDigitChar_mem (b / 16) (by omega)
  · rcases List.mem_cons.mp hcl2 with rfl | hcl3
    · exact hexDigitChar_mem (b % 16) (by omega)
    · simp at hcl3

/-! ### The sorted token list `normalize_query` produces -/

/-- The token list whose space-joined form is the value of
`normalize_query` (definitionally). -/
def outWords (q : List Char) : List (List Char) :=
  List.insertionSort (· ≤ ·)
    ((pySplit ((collapseWs (pyStrip (q.map Char.toLower))).filter keepChar)).filter
      (fun w => !(stop_words.contains w)))

theorem normalize_query_eq_outWords (q : List Char) :
    normalize_query q = List.intercalate [' '] (outWords q) := rfl

theorem mem_outWords {q : List Char} {w : List Char} (hw : w ∈ outWords q) :
    w ∈ pySplit ((collapseWs (pyStrip (q.map Char.toLower))).filter keepChar) ∧
    stop_words.contains w = false := by
  have h1 : w ∈ (pySplit ((collapseWs (pyStrip (q.map Char.toLower))).filter
      keepChar)).filter (fun w => !(stop_words.contains w)) :=
    (List.perm_insertionSort _ _).subset hw
  rcases List.mem_filter.mp h1 with ⟨h2, h3⟩
  exact ⟨h2, by simpa using h3⟩

theorem outWords_good (q : List Char) : GoodTokens (outWords q) := by
  intro w hw
  obtain ⟨h1, _⟩ := mem_outWords hw
  obtain ⟨hne, hchars⟩ := splitWsGo_sound _ [] (by simp) w h1
  exact ⟨hne, fun c hc => (hchars c hc).1⟩

theorem outWords_clean (q : List Char) : ∀ w ∈ outWords q, cleanTok w = w := by
  intro w hw
  obtain ⟨h1, _⟩ := mem_outWords hw
  obtain ⟨_, hchars⟩ := splitWsGo_sound _ [] (by simp) w h1
  have hfix : ∀ c ∈ w, keepChar c = true ∧ Char.toLower c = c := by
    intro c hc
    have hmem : c ∈ (collapseWs (pyStrip (q.map Char.toLower))).filter keepChar :=
      ((hchars c hc).2).resolve_left (by simp)
    exact cleaned_chars q c hmem
  show (w.map Char.toLower).filter keepChar = w
  have hmap : w.map Char.toLower = w := by
    have : w.map Char.toLower = w.map id :=
      List.map_congr_left (fun a ha => (hfix a ha).2)
    rw [this, List.map_id]
  rw [hmap]
  exact List.filter_eq_self.mpr (fun a ha => (hfix a ha).1)

theorem outWords_sorted (q : List Char) :
    List.Sorted (· ≤ ·) (outWords q) :=
  List.sorted_insertionSort _ _

/-- C6 (claim): `normalize_query` is idempotent; it is invariant under token
permutation, under per-token case and punctuation differences (token lists
with equal cleaned forms), and under insertion of stop-word tokens;
`generate_cache_key` is determined by the normalized form (so equal
normalizations give equal keys); and every cache key is exactly 32 lower-case
hexadecimal characters — the rendering of a 128-bit digest. -/
theorem normalize_cache_key_properties :
    (∀ q : List Char, normalize_query (normalize_query q) = normalize_query q) ∧
    (∀ ws ws2 : List (List Char), GoodTokens ws → ws.Perm ws2 →
      normalize_query (joinTokens ws) = normalize_query (joinTokens ws2)) ∧
    (∀ ws ws2 : List (List Char), GoodTokens ws → GoodTokens ws2 →
      ws.map cleanTok = ws2.map cleanTok →
      normalize_query (joinTokens ws) = normalize_query (joinTokens ws2)) ∧
    (∀ ws extra : List (List Char), GoodTokens (ws ++ extra) →
      (∀ w ∈ extra, stop_words.contains (cleanTok w) = true) →
      normalize_query (joinTokens (ws ++ extra)) = normalize_query (joinTokens ws)) ∧
    (∀ a b : List Char, normalize_query a = normalize_query b →
      generate_cache_key a = generate_cache_key b) ∧
    (∀ q : List Char, (generate_cache_key q).length = 32 ∧
      ∀ c ∈ generate_cache_key q, c ∈ "0123456789abcdef".data) := by
  refine ⟨?_, ?_, ?_, ?_, ?_, ?_⟩
  · -- idempotence
    intro q
    conv_lhs => rw [normalize_query_eq_outWords q, intercalate_eq_joinTokens]
    rw [normalize_joinTokens (outWords_good q)]
    have hclean : (outWords q).map cleanTok = outWords q := by
      have : (outWords q).map cleanTok = (outWords q).map id :=
        List.map_congr_left (fun a ha => outWords_clean q a ha)
      rw [this, List.map_id]
    rw [hclean]
    have hne : (outWords q).filter (fun w => !w.isEmpty) = outWords q :=
      List.filter_eq_self.mpr (fun a ha => by
        simpa [List.isEmpty_iff] using (outWords_good q a ha).1)
    rw [hne]
    have hns : (outWords q).filter (fun w => !(stop_words.contains w))
        = outWords q :=
      List.filter_eq_self.mpr (fun a ha => by
        simpa using (mem_outWords ha).2)
    rw [hns, insertionSort_eq_self (outWords_sorted q)]
    exact (normalize_query_eq_outWords q).symm
  · -- token permutation
    intro ws ws2 hg hperm
    have hg2 : GoodTokens ws2 := fun w hw => hg w (hperm.symm.subset hw)
    rw [normalize_joinTokens hg, normalize_joinTokens hg2]
    exact congrArg (List.intercalate [' '])
      (insertionSort_eq_of_perm
        (((hperm.map cleanTok).filter _).filter _))
  · -- equal cleaned token lists
    intro ws ws2 hg hg2 hmap
    rw [normalize_joinTokens hg, normalize_joinTokens hg2, hmap]
  · -- stop-word insertion
    intro ws extra hg hstop
    have hgws : GoodTokens ws := fun w hw => hg w (List.mem_append_left _ hw)
    rw [normalize_joinTokens hg, normalize_joinTokens hgws]
    have hdrop : ((extra.map cleanTok).filter (fun w => !w.isEmpty)).filter
        (fun w => !(stop_words.contains w)) = [] := by
      rw [List.filter_eq_nil_iff]
      intro w hw
      rcases List.mem_filter.mp hw with ⟨hmem, _⟩
      rcases List.mem_map.mp hmem with ⟨v, hv, rfl⟩
      simpa using hstop v hv
    rw [List.map_append, List.filter_append, List.filter_append, hdrop,
      List.append_nil]
  · -- the cache key is a function of the normalized form
    intro a b h
    show MD5.hexdigest (encodeUtf8 (normalize_query a))
        = MD5.hexdigest (encodeUtf8 (normalize_query b))
    rw [h]
  · -- 32 lower-case hex characters
    intro q
    exact ⟨hexdigest_length _, hexdigest_chars _⟩

/-- Witness for C6 at concrete inputs: a two-token permutation, a stop-word
insertion, and idempotence on a concrete query. -/
theorem normalize_cache_key_properties_witness :
    GoodTokens ["machine".data, "learning".data] ∧
    List.Perm ["machine".data, "learning".data]
      ["learning".data, "machine".data] ∧
    normalize_query (joinTokens ["machine".data, "learning".data])
      = normalize_query (joinTokens ["learning".data, "machine".data]) ∧
    normalize_query (normalize_query "Deep   LEARNING, models!".data)
      = normalize_query "Deep   LEARNING, models!".data := by
  have hg : GoodTokens ["machine".data, "learning".data] := by
    intro w hw
    rcases List.mem_cons.mp hw with rfl | hw2
    · exact ⟨by decide, by decide⟩
    · rcases List.mem_cons.mp hw2 with rfl | hw3
      · exact ⟨by decide, by decide⟩
      · simp at hw3
  have hp : List.Perm ["machine".data, "learning".data]
      ["learning".data, "machine".data] := List.Perm.swap _ _ _
  exact ⟨hg, hp, normalize_cache_key_properties.2.1 _ _ hg hp,
    normalize_cache_key_properties.1 _⟩

/-! ## Data model

Embedding of `backend/models/research.py` (the fields the cache and the
orchestrator round-trip).  `datetime` values are rationals. -/

/-- Embedding of `QueryStatus`. -/
inductive QueryStatus
  | pending
  | processing
  | completed
  | failed
deriving DecidableEq, Repr

/-- Embedding of `SourceType`. -/
inductive SourceType
  | google_scholar
  | google_books
  | sciencedirect
deriving DecidableEq, Repr

/-- Embedding of `SourceType.value`: the string payload of the enum member, used as the
key of the per-source results dict. -/
def SourceType.value : SourceType → String
  | .google_scholar => "google_scholar"
  | .google_books => "google_books"
  | .sciencedirect => "sciencedirect"

/-- Embedding of `SourceResult`. -/
structure SourceResult where
  title : String
  authors : List String
  abstract : Option String
  url : Option String
  publication_date : Option ℚ
  source_type : SourceType
  citation_count : Option Int
  isbn : Option String
  doi : Option String
  journal : Option String
  preview_link : Option String
  access_status : Option String
deriving DecidableEq, Repr

/-- Embedding of `ResearchResult`: `results` is the `Dict[str, List[SourceResult]]`
keyed by `SourceType.value`, in insertion order. -/
structure ResearchResult where
  query_id : String
  results : List (String × List SourceResult)
  ai_summary : Option String
  confidence_score : Option ℚ
  cached : Bool
  created_at : ℚ
  expires_at : Option ℚ
deriving DecidableEq, Repr

/-! ## Cache engine

Embedding of `CacheService` (`backend/services/cache_service.py`).  The two
MongoDB collections are association lists of documents; every motor call
that can fail is given its outcome (`.ok` or `.error`, the latter standing
for a raised exception) by a persistence environment threaded exactly along
the Python control flow. -/

namespace CacheService

/-- The exception classes of `backend/exceptions.py` observable from the
cache layer: `DatabaseError` (raised by `_get_collections`) and
`CacheError`. -/
inductive PyErr
  | databaseError
  | cacheError
deriving DecidableEq, Repr

/-- A document of the `research_results` collection: the dumped
`ResearchResult` fields plus the keys `store_result` adds on top. -/
structure StoredResult where
  query_hash : List Char
  original_query : List Char
  expires_at : ℚ
  payload : ResearchResult
deriving DecidableEq, Repr

/-- A document of the `cache_metadata` collection. -/
structure MetaEntry where
  query_hash : List Char
  hit_count : Nat
  last_updated : ℚ
  query_variations : List (List Char)
deriving DecidableEq, Repr

/-- The MongoDB state seen by the cache service. -/
structure CacheDB where
  research_results : List StoredResult
  cache_metadata : List MetaEntry
deriving DecidableEq, Repr

/-- Embedding of `find_one({"query_hash": key, "expires_at": {"$gt": now}})`. -/
def findOne (now : ℚ) (key : List Char) (docs : List StoredResult) :
    Option StoredResult :=
  docs.find? (fun d => d.query_hash == key && decide (now < d.expires_at))

/-- The metadata update of `get_cached_result`:
`update_one({"query_hash": key}, {"$inc": {"hit_count": 1}, "$set": ...,
"$addToSet": {"query_variations": query}}, upsert=True)`.  With `upsert` and
no existing document, `$inc` creates the counter at `0 + 1`. -/
def bumpHitCount (key query : List Char) (now : ℚ) :
    List MetaEntry → List MetaEntry
  | [] => [{ query_hash := key, hit_count := 1, last_updated := now,
             query_variations := [query] }]
  | m :: ms =>
    if m.query_hash == key then
      { m with hit_count := m.hit_count + 1, last_updated := now,
               query_variations :=
                 if query ∈ m.query_variations then m.query_variations
                 else m.query_variations ++ [query] } :: ms
    else m :: bumpHitCount key query now ms

/-- Embedding of `CacheService.get_cached_result`, success path (persistence faults on
the lookup are injected by the world of the orchestrator, mirroring the
`raise CacheError` / `raise` re-raise of the source).  Returns the cached
result (with `cached = True` forced, as `cached_doc["cached"] = True` does)
and the updated metadata collection. -/
def get_cached_result (now : ℚ) (query : List Char) (db : CacheDB) :
    Option ResearchResult × CacheDB :=
  let cache_key := generate_cache_key query
  match findOne now cache_key db.research_results with
  | none => (none, db)
  | some doc =>
    (some { doc.payload with cached := true },
     { db with cache_metadata := bumpHitCount cache_key query now db.cache_metadata })

/-- The outcomes of the persistence calls `store_result` makes, in program
order. -/
structure StoreEnv where
  get_collections : Except Unit Unit
  replace_one : Except Unit Unit
  update_one : Except Unit Unit
deriving Repr

/-- A persistence layer in which every call succeeds. -/
def allOk : StoreEnv :=
  { get_collections := .ok (), replace_one := .ok (), update_one := .ok () }

/-- The TTL choice `ttl_hours or self.default_ttl_hours`: Python `or` yields the right
operand whenever the left is falsy, i.e. `None` **or `0`**. -/
def ttlOrDefault (ttl_hours : Option Int) (default_ttl_hours : Int) : Int :=
  match ttl_hours with
  | none => default_ttl_hours
  | some n => if n = 0 then default_ttl_hours else n

/-- Embedding of `replace_one({"query_hash": ...}, doc, upsert=True)`: replace the first
matching document, or insert. -/
def replaceFirst (doc : StoredResult) : List StoredResult → List StoredResult
  | [] => [doc]
  | d :: ds =>
    if d.query_hash == doc.query_hash then doc :: ds
    else d :: replaceFirst doc ds

/-- The metadata update of `store_result`: `$set last_updated`,
`$addToSet query_variations`, `$setOnInsert hit_count = 0`, upsert. -/
def metaOnStore (key query : List Char) (now : ℚ) :
    List MetaEntry → List MetaEntry
  | [] => [{ query_hash := key, hit_count := 0, last_updated := now,
             query_variations := [query] }]
  | m :: ms =>
    if m.query_hash == key then
      { m with last_updated := now,
               query_variations :=
                 if query ∈ m.query_variations then m.query_variations
                 else m.query_variations ++ [query] } :: ms
    else m :: metaOnStore key query now ms

/-- Embedding of `CacheService.store_result`.  Mirrors the code as written: a
`DatabaseError` from `_get_collections` is re-raised by the
`except DatabaseError: raise` arm, and **any other persistence fault is
re-raised as `CacheError` by the final handler** — the `return False`
promised by its docstring is unreachable on the failure path. -/
def store_result (env : StoreEnv) (default_ttl_hours : Int) (now : ℚ)
    (query : List Char) (result : ResearchResult) (ttl_hours : Option Int)
    (db : CacheDB) : Except PyErr (Bool × CacheDB) :=
  match env.get_collections with
  | .error _ => .error .databaseError
  | .ok _ =>
    let cache_key := generate_cache_key query
    let ttl := ttlOrDefault ttl_hours default_ttl_hours
    let expires_at := now + (ttl : ℚ) * 3600
    let result_doc : StoredResult :=
      { query_hash := cache_key, original_query := query,
        expires_at := expires_at,
        payload := { result with cached := true, expires_at := some expires_at } }
    match env.replace_one with
    | .error _ => .error .cacheError
    | .ok _ =>
      let db1 := { db with research_results := replaceFirst result_doc db.research_results }
      match env.update_one with
      | .error _ => .error .cacheError
      | .ok _ =>
        .ok (true, { db1 with
          cache_metadata := metaOnStore cache_key query now db1.cache_metadata })

/-- The outcomes of the persistence calls `invalidate_cache` makes. -/
structure InvalidateEnv where
  get_collections : Except Unit Unit
  delete_one_result : Except Unit Unit
  delete_one_meta : Except Unit Unit
deriving Repr

/-- Embedding of `delete_one({"query_hash": key})`: remove the first matching document,
reporting `deleted_count`. -/
def deleteFirst (key : List Char) : List StoredResult → List StoredResult × Nat
  | [] => ([], 0)
  | d :: ds =>
    if d.query_hash == key then (ds, 1)
    else
      let r := deleteFirst key ds
      (d :: r.1, r.2)

def deleteFirstMeta (key : List Char) : List MetaEntry → List MetaEntry
  | [] => []
  | m :: ms => if m.query_hash == key then ms else m :: deleteFirstMeta key ms

/-- Embedding of `CacheService.invalidate_cache`.  Every fault — `DatabaseError`
included — lands in the single `except Exception` handler, which returns
`False`; nothing escapes. -/
def invalidate_cache (env : InvalidateEnv) (query : List Char) (db : CacheDB) :
    Except PyErr (Bool × CacheDB) :=
  match env.get_collections with
  | .error _ => .ok (false, db)
  | .ok _ =>
    let cache_key := generate_cache_key query
    match env.delete_one_result with
    | .error _ => .ok (false, db)
    | .ok _ =>
      let r := deleteFirst cache_key db.research_results
      let db1 := { db with research_results := r.1 }
      match env.delete_one_meta with
      | .error _ => .ok (false, db1)
      | .ok _ =>
        let db2 := { db1 with
          cache_metadata := deleteFirstMeta cache_key db1.cache_metadata }
        .ok (decide (0 < r.2), db2)

/-- The outcomes of the persistence calls `cleanup_expired_cache` makes. -/
structure CleanupEnv where
  get_collections : Except Unit Unit
  find_expired : Except Unit Unit
  delete_many_results : Except Unit Unit
  delete_many_meta : Except Unit Unit
deriving Repr

/-- Embedding of `CacheService.cleanup_expired_cache`.  As with `invalidate_cache`, every
fault is caught by the `except Exception` handler, which returns `0`. -/
def cleanup_expired_cache (env : CleanupEnv) (now : ℚ) (db : CacheDB) :
    Except PyErr (Nat × CacheDB) :=
  match env.get_collections with
  | .error _ => .ok (0, db)
  | .ok _ =>
    match env.find_expired with
    | .error _ => .ok (0, db)
    | .ok _ =>
      let expired_keys :=
        (db.research_results.filter (fun d => decide (d.expires_at ≤ now))).map
          (fun d => d.query_hash)
      if expired_keys.isEmpty then .ok (0, db)
      else
        match env.delete_many_results with
        | .error _ => .ok (0, db)
        | .ok _ =>
          let remaining :=
            db.research_results.filter (fun d => !(decide (d.expires_at ≤ now)))
          let deleted_count :=
            (db.research_results.filter (fun d => decide (d.expires_at ≤ now))).length
          let db1 := { db with research_results := remaining }
          match env.delete_many_meta with
          | .error _ => .ok (0, db1)
          | .ok _ =>
            .ok (deleted_count, { db1 with
              cache_metadata := db1.cache_metadata.filter
                (fun m => !(expired_keys.contains m.query_hash)) })

/-- The hit counter recorded for a key (`0` when no metadata document
exists, matching `$inc` upsert semantics). -/
def hitCountOf (key : List Char) (meta : List MetaEntry) : Nat :=
  match meta.find? (fun m => m.query_hash == key) with
  | some m => m.hit_count
  | none => 0

theorem hitCountOf_cons_pos {m : MetaEntry} {key : List Char}
    (h : (m.query_hash == key) = true) (ms : List MetaEntry) :
    hitCountOf key (m :: ms) = m.hit_count := by
  simp [hitCountOf, List.find?, h]

theorem hitCountOf_cons_neg {m : MetaEntry} {key : List Char}
    (h : (m.query_hash == key) = false) (ms : List MetaEntry) :
    hitCountOf key (m :: ms) = hitCountOf key ms := by
  simp [hitCountOf, List.find?, h]

theorem hitCountOf_bumpHitCount (key query : List Char) (now : ℚ) :
    ∀ meta, hitCountOf key (bumpHitCount key query now meta)
      = hitCountOf key meta + 1
  | [] => by
    simp [hitCountOf, bumpHitCount, List.find?, List.instBEq]
  | m :: ms => by
    cases h : m.query_hash == key with
    | true =>
      rw [bumpHitCount, if_pos h]
      simp [hitCountOf, List.find?, h]
    | false =>
      rw [bumpHitCount, if_neg (by simp [h])]
      rw [hitCountOf_cons_neg h, hitCountOf_cons_neg h]
      exact hitCountOf_bumpHitCount key query now ms

theorem findOne_replaceFirst {doc : StoredResult} {now : ℚ}
    (hlt : now < doc.expires_at) :
    ∀ l : List StoredResult,
      findOne now doc.query_hash (replaceFirst doc l) = some doc
  | [] => by
    rw [replaceFirst, findOne, List.find?_cons_of_pos]
    simp [hlt]
  | d :: ds => by
    by_cases h : d.query_hash == doc.query_hash
    · rw [replaceFirst, if_pos h, findOne, List.find?_cons_of_pos]
      simp [hlt]
    · rw [replaceFirst, if_neg h, findOne, List.find?_cons_of_neg]
      · exact findOne_replaceFirst hlt ds
      · simp only [Bool.and_eq_true, not_and]
        intro hd
        exact absurd hd h

/-! ### C1: fault handling of `store_result` / `invalidate_cache` /
`cleanup_expired_cache` at concrete faulting persistence layers -/

/-- A result fixture, mirroring the unit-test fixture shape. -/
def sampleResult : ResearchResult :=
  { query_id := "test-query-id", results := [], ai_summary := none,
    confidence_score := none, cached := false, created_at := 0,
    expires_at := none }

def emptyDB : CacheDB := { research_results := [], cache_metadata := [] }

/-- The fault of `test_store_result_failure`: `replace_one` raises. -/
def replaceOneFaults : StoreEnv := { get_collections := .ok (), replace_one := .error (), update_one := .ok () }

def collectionsFault : StoreEnv := { get_collections := .error (), replace_one := .ok (), update_one := .ok () }

def updateOneFaults : StoreEnv := { get_collections := .ok (), replace_one := .ok (), update_one := .error () }

def invalidateCollectionsFault : InvalidateEnv := { get_collections := .error (), delete_one_result := .ok (), delete_one_meta := .ok () }

def cleanupCollectionsFault : CleanupEnv := { get_collections := .error (), find_expired := .ok (), delete_many_results := .ok (), delete_many_meta := .ok () }

/-- C1 (code_bug): on a persistence fault, `invalidate_cache` returns
`False` and `cleanup_expired_cache` returns `0`, exactly as the claim says —
but `store_result` does **not** return `False`: the fault injected at
`replace_one` (the very scenario of `test_store_result_failure`, which
asserts `success is False`) is re-raised as `CacheError`, and a
`DatabaseError` from `_get_collections` propagates as well.  The claim and
the docstring/test describe the intended behavior; the code raises. -/
theorem cache_fault_return_values :
    store_result replaceOneFaults 24 0 "test query".data sampleResult none emptyDB
      = .error PyErr.cacheError ∧
    store_result collectionsFault 24 0 "test query".data sampleResult none emptyDB
      = .error PyErr.databaseError ∧
    store_result updateOneFaults 24 0 "test query".data sampleResult none emptyDB
      = .error PyErr.cacheError ∧
    invalidate_cache invalidateCollectionsFault "test query".data emptyDB
      = .ok (false, emptyDB) ∧
    cleanup_expired_cache cleanupCollectionsFault 0 emptyDB
      = .ok (0, emptyDB) := by
  exact ⟨rfl, rfl, rfl, rfl, rfl⟩

/-! ### C10: a zero TTL silently becomes the 24-hour default -/

/-- C10 (claim): `ttl = ttl_hours or self.default_ttl_hours` treats `0` as
falsy, so `store_result(..., ttl_hours=0)` behaves identically to omitting
the parameter: the entry is stored with the default 24-hour TTL and is not
immediately expired — an immediate lookup at the same instant still finds
it. -/
theorem store_result_zero_ttl (now : ℚ) (query : List Char)
    (result : ResearchResult) (db : CacheDB) :
    ttlOrDefault (some 0) 24 = 24 ∧
    store_result allOk 24 now query result (some 0) db
      = store_result allOk 24 now query result none db ∧
    ∃ db2, store_result allOk 24 now query result (some 0) db
        = Except.ok (true, db2) ∧
      ∃ doc, findOne now (generate_cache_key query) db2.research_results
          = some doc ∧
        doc.expires_at = now + 24 * 3600 ∧ now < doc.expires_at := by
  have hdoc : now < (({ query_hash := generate_cache_key query, original_query := query, expires_at := now + ((ttlOrDefault (some 0) 24 : Int) : ℚ) * 3600, payload := { result with cached := true, expires_at := some (now + ((ttlOrDefault (some 0) 24 : Int) : ℚ) * 3600) } } : StoredResult)).expires_at := by
    show now < now + ((ttlOrDefault (some 0) 24 : Int) : ℚ) * 3600
    have : (0 : ℚ) < ((ttlOrDefault (some 0) 24 : Int) : ℚ) * 3600 := by
      norm_num [ttlOrDefault]
    linarith
  refine ⟨rfl, rfl, _, rfl, ?_⟩
  refine ⟨_, findOne_replaceFirst hdoc db.research_results, ?_, hdoc⟩
  show now + ((ttlOrDefault (some 0) 24 : Int) : ℚ) * 3600 = now + 24 * 3600
  norm_num [ttlOrDefault]

end CacheService

/-! ## Research orchestrator

Embedding of `ResearchOrchestrator`
(`backend/services/research_orchestrator.py`).  A processing run is
deterministic once the environment is fixed: the world below packages the
clock, the cache state, the way each awaited external call resolves
(adapter searches, AI synthesis, persistence), threaded along the control flow of the source. -/

namespace ResearchOrchestrator

/-- How the `search_*` coroutine of one adapter resolves: a result list, or a
raised exception. -/
abbrev AdapterOutcome := Except Unit (List SourceResult)

/-- Embedding of `_search_google_scholar`: the service call wrapped in
`try ... except Exception: return []`. -/
def _search_google_scholar (o : AdapterOutcome) : List SourceResult :=
  match o with
  | .ok results => results
  | .error _ => []

/-- Embedding of `_search_google_books`, same wrapping. -/
def _search_google_books (o : AdapterOutcome) : List SourceResult :=
  match o with
  | .ok results => results
  | .error _ => []

/-- Embedding of `_search_sciencedirect`, same wrapping. -/
def _search_sciencedirect (o : AdapterOutcome) : List SourceResult :=
  match o with
  | .ok results => results
  | .error _ => []

/-- How `asyncio.wait_for(asyncio.gather(...), timeout_seconds)` resolves:
either the gather returns all three wrapper values within the timeout, or
`asyncio.TimeoutError` is raised.  (`wait_for` guarantees the orchestrator
is resumed no later than `timeout_seconds` after the fan-out starts — the
wall-clock bound itself lives in that asyncio contract, outside this
embedding.) -/
inductive FanoutEnv
  | completed (scholar books sciencedirect : AdapterOutcome)
  | timedOut

/-- The expression `result or []` on a list value: Python `or` returns `[]` when the list
is empty (falsy), i.e. it is the identity on lists. -/
def pyOrEmpty (l : List SourceResult) : List SourceResult :=
  if l.isEmpty then [] else l

theorem pyOrEmpty_eq (l : List SourceResult) : pyOrEmpty l = l := by
  cases l <;> rfl

/-- Embedding of `_coordinate_research_sources`.  The wrappers catch every adapter
exception, so the `isinstance(result, Exception)` arm of the gather loop
never fires; on `TimeoutError` the `results` dict is still empty when the
handler runs, so every source is recorded as `[]`. -/
def _coordinate_research_sources (env : FanoutEnv) :
    List (String × List SourceResult) :=
  match env with
  | .completed scholar books sciencedirect =>
    [(SourceType.google_scholar.value, pyOrEmpty (_search_google_scholar scholar)),
     (SourceType.google_books.value, pyOrEmpty (_search_google_books books)),
     (SourceType.sciencedirect.value, pyOrEmpty (_search_sciencedirect sciencedirect))]
  | .timedOut =>
    [(SourceType.google_scholar.value, []),
     (SourceType.google_books.value, []),
     (SourceType.sciencedirect.value, [])]

/-- From `services/agno_ai_service.py`: `ResearchSynthesis` (the fields the
orchestrator reads). -/
structure ResearchSynthesis where
  summary : String
  key_insights : List String
  confidence_score : ℚ
  methodology_notes : Option String

/-- Embedding of `sum(len(source_results) for source_results in results.values())`. -/
def totalResults (results : List (String × List SourceResult)) : Nat :=
  (results.map (fun p => p.2.length)).sum

/-- Embedding of `_process_with_ai`: the pair of summary and confidence plus — recorded for
the claims — whether `synthesize_research_results` was actually awaited.
With no results the synthesis is skipped and `(None, None)` returned; a
synthesis failure falls back to the locally built summary with confidence
`0.6`. -/
def _process_with_ai (query : List Char)
    (results : List (String × List SourceResult))
    (ai : Except Unit ResearchSynthesis) :
    (Option String × Option ℚ) × Bool :=
  if totalResults results = 0 then ((none, none), false)
  else
    match ai with
    | .ok synthesis => ((some synthesis.summary, some synthesis.confidence_score), true)
    | .error _ =>
      ((some ("Research completed for \x27" ++ String.mk query ++ "\x27 with "
          ++ toString (totalResults results)
          ++ " results found across multiple sources."),
        some (0.6 : ℚ)), true)

/-- The exceptions `process_research_query` can let escape: `ValueError`
for an unknown id, and whatever the cache layer raised. -/
inductive ProcErr
  | valueError
  | cacheError
  | databaseError
deriving DecidableEq, Repr

def liftCacheErr : CacheService.PyErr → ProcErr
  | .databaseError => .databaseError
  | .cacheError => .cacheError

/-- The environment of one `process_research_query` call. `lookupFault`
injects a persistence fault inside `get_cached_result` (which the source
re-raises as `CacheError` / `DatabaseError`); `store` is the persistence
environment of the final write-through. -/
structure World where
  now : ℚ
  query_id : String
  query_text : List Char
  db : CacheService.CacheDB
  lookupFault : Option CacheService.PyErr
  fanout : FanoutEnv
  ai : Except Unit ResearchSynthesis
  store : CacheService.StoreEnv

/-- The observable outcome of one `process_research_query` call: the
returned value or escaped exception, the final `query.status`, whether the
`finally` clause removed the id from `_active_queries`, whether the fan-out
and the AI synthesis ran, and the cache state afterwards. -/
structure ProcRun where
  outcome : Except ProcErr ResearchResult
  status : Option QueryStatus
  removed_from_active : Bool
  ranFanout : Bool
  ranSynthesis : Bool
  db : CacheService.CacheDB

/-- Embedding of `ResearchOrchestrator.process_research_query` for query `query_id`;
`queryKnown` is `query_id in self._active_queries`.  The cache service is
the default `CacheService()` with a 24-hour default TTL, and the final
write-through passes no `ttl_hours` (line 149: `store_result(query_text,
result)`). -/
def process_research_query (w : World) (queryKnown : Bool) : ProcRun :=
  if queryKnown then
    match w.lookupFault with
    | some e =>
      { outcome := .error (liftCacheErr e), status := some .failed,
        removed_from_active := true, ranFanout := false,
        ranSynthesis := false, db := w.db }
    | none =>
      match CacheService.get_cached_result w.now w.query_text w.db with
      | (some cached_result, db2) =>
        { outcome := .ok cached_result, status := some .completed,
          removed_from_active := true, ranFanout := false,
          ranSynthesis := false, db := db2 }
      | (none, db2) =>
        let research_results := _coordinate_research_sources w.fanout
        let ai_out := _process_with_ai w.query_text research_results w.ai
        let result : ResearchResult :=
          { query_id := w.query_id, results := research_results,
            ai_summary := ai_out.1.1, confidence_score := ai_out.1.2,
            cached := false, created_at := w.now, expires_at := none }
        match CacheService.store_result w.store 24 w.now w.query_text result
            none db2 with
        | .error e =>
          { outcome := .error (liftCacheErr e), status := some .failed,
            removed_from_active := true, ranFanout := true,
            ranSynthesis := ai_out.2, db := db2 }
        | .ok store_out =>
          { outcome := .ok result, status := some .completed,
            removed_from_active := true, ranFanout := true,
            ranSynthesis := ai_out.2, db := store_out.2 }
  else
    { outcome := .error .valueError, status := none,
      removed_from_active := false, ranFanout := false,
      ranSynthesis := false, db := w.db }

/-! ### Fixtures for the concrete runs -/

/-- A sample adapter hit. -/
def samplePaper : SourceResult :=
  { title := "Attention Is All You Need", authors := ["Vaswani"],
    abstract := none, url := none, publication_date := none,
    source_type := .google_scholar, citation_count := some 10000,
    isbn := none, doi := none, journal := none, preview_link := none,
    access_status := none }

def sampleSynthesis : ResearchSynthesis :=
  { summary := "a synthesis", key_insights := [], confidence_score := 0.9,
    methodology_notes := none }

/-- Every adapter throws; lookup misses; persistence healthy. -/
def allFailWorld : World :=
  { now := 0, query_id := "query-c2", query_text := "machine learning".data,
    db := CacheService.emptyDB, lookupFault := none,
    fanout := .completed (.error ()) (.error ()) (.error ()),
    ai := .error (), store := CacheService.allOk }

/-- C2 counterexample: with every source adapter throwing (and a healthy
persistence layer), `process_research_query` does **not** transition the
query to `Failed` and does not re-raise: each adapter failure was already
swallowed by its `_search_*` wrapper, `_process_with_ai` sees zero results
and skips synthesis, and the run completes normally with an empty result —
contradicting the Failed-and-re-raise of the claim. -/
theorem all_adapters_fail_completes_cex :
    (process_research_query allFailWorld true).status
      = some QueryStatus.completed ∧
    (process_research_query allFailWorld true).outcome.isOk = true ∧
    (process_research_query allFailWorld true).ranSynthesis = false :=
  ⟨rfl, rfl, rfl⟩

/-- C2 (amended): in a processing run in which every source adapter throws
(on a cache miss, with a healthy persistence layer), every failure is
converted to an empty list, AI synthesis is skipped, and
`process_research_query` **completes**: it returns a result with all three
sources empty and no summary, and the query transitions to `Completed` —
it does not fail and does not re-raise. -/
theorem all_adapters_fail_completes (w : World)
    (hfault : w.lookupFault = none)
    (hmiss : CacheService.findOne w.now (generate_cache_key w.query_text)
        w.db.research_results = none)
    (hfan : w.fanout = .completed (.error ()) (.error ()) (.error ()))
    (hstore : w.store = CacheService.allOk) :
    ∃ r : ResearchResult,
      (process_research_query w true).outcome = Except.ok r ∧
      (process_research_query w true).status = some QueryStatus.completed ∧
      (process_research_query w true).ranSynthesis = false ∧
      r.results = [(SourceType.google_scholar.value, []),
        (SourceType.google_books.value, []),
        (SourceType.sciencedirect.value, [])] ∧
      r.ai_summary = none ∧ r.confidence_score = none := by
  obtain ⟨now, qid, qt, db, lf, fan, ai, store⟩ := w
  dsimp only at hfault hmiss hfan hstore
  subst hfault hfan hstore
  have hget : CacheService.get_cached_result now qt db = (none, db) := by
    dsimp only [CacheService.get_cached_result]
    rw [hmiss]
  simp only [process_research_query, hget, CacheService.store_result,
    CacheService.allOk]
  exact ⟨_, rfl, rfl, rfl, rfl, rfl, rfl⟩

/-- Witness for the amended C2 at the concrete all-fail world. -/
theorem all_adapters_fail_completes_witness :
    allFailWorld.lookupFault = none ∧
    CacheService.findOne allFailWorld.now
      (generate_cache_key allFailWorld.query_text)
      allFailWorld.db.research_results = none ∧
    allFailWorld.fanout = .completed (.error ()) (.error ()) (.error ()) ∧
    allFailWorld.store = CacheService.allOk ∧
    ∃ r : ResearchResult,
      (process_research_query allFailWorld true).outcome = Except.ok r ∧
      (process_research_query allFailWorld true).status
        = some QueryStatus.completed ∧
      (process_research_query allFailWorld true).ranSynthesis = false ∧
      r.results = [(SourceType.google_scholar.value, []),
        (SourceType.google_books.value, []),
        (SourceType.sciencedirect.value, [])] ∧
      r.ai_summary = none ∧ r.confidence_score = none :=
  ⟨rfl, rfl, rfl, rfl, all_adapters_fail_completes allFailWorld rfl rfl rfl rfl⟩

/-- Fan-out and synthesis succeed; the persistence layer faults at the
cache write-through (`replace_one` raises, the `test_store_result_failure`
scenario). -/
def storeFaultWorld : World :=
  { now := 0, query_id := "query-c3", query_text := "machine learning".data,
    db := CacheService.emptyDB, lookupFault := none,
    fanout := .completed (.ok [samplePaper]) (.ok []) (.ok []),
    ai := .ok sampleSynthesis, store := CacheService.replaceOneFaults }

/-- C3 (code_bug): a run whose fan-out and AI synthesis succeed, but whose
final cache write-through hits a persistence fault.  Because `store_result`
re-raises the fault as `CacheError` (instead of returning `False` as its
docstring and unit test promise — see C1) and line 149 of the orchestrator
awaits it unguarded inside the big `try`, the fault propagates: the query
transitions to `Failed` and the computed result is thrown away — the
write-through is not best-effort as the spec requires. -/
theorem cache_store_fault_fails_query :
    (process_research_query storeFaultWorld true).status
      = some QueryStatus.failed ∧
    (process_research_query storeFaultWorld true).outcome
      = Except.error ProcErr.cacheError :=
  ⟨rfl, rfl⟩

/-- C4 (claim): on a cache miss where exactly two of the three source
adapters throw and the third returns its results within the timeout (and
the persistence layer of the write-through is healthy), `process_research_query`
returns instead of raising, and the returned per-source map has exactly the
three configured source keys, the two failing sources mapped to `[]` and
the successful source mapped to the list its adapter returned. -/
theorem process_two_adapters_fail (w : World) (rs : List SourceResult)
    (hfault : w.lookupFault = none)
    (hmiss : CacheService.findOne w.now (generate_cache_key w.query_text)
        w.db.research_results = none)
    (hstore : w.store = CacheService.allOk)
    (hfan : w.fanout = .completed (.ok rs) (.error ()) (.error ())
      ∨ w.fanout = .completed (.error ()) (.ok rs) (.error ())
      ∨ w.fanout = .completed (.error ()) (.error ()) (.ok rs)) :
    ∃ r : ResearchResult,
      (process_research_query w true).outcome = Except.ok r ∧
      (process_research_query w true).status = some QueryStatus.completed ∧
      r.results.map Prod.fst = [SourceType.google_scholar.value,
        SourceType.google_books.value, SourceType.sciencedirect.value] ∧
      (r.results = [(SourceType.google_scholar.value, rs),
          (SourceType.google_books.value, []),
          (SourceType.sciencedirect.value, [])]
        ∨ r.results = [(SourceType.google_scholar.value, []),
          (SourceType.google_books.value, rs),
          (SourceType.sciencedirect.value, [])]
        ∨ r.results = [(SourceType.google_scholar.value, []),
          (SourceType.google_books.value, []),
          (SourceType.sciencedirect.value, rs)]) := by
  obtain ⟨now, qid, qt, db, lf, fan, ai, store⟩ := w
  dsimp only at hfault hmiss hfan hstore
  subst hfault hstore
  have hget : CacheService.get_cached_result now qt db = (none, db) := by
    dsimp only [CacheService.get_cached_result]
    rw [hmiss]
  rcases hfan with rfl | rfl | rfl
  · simp only [process_research_query, hget, CacheService.store_result,
      CacheService.allOk, _coordinate_research_sources, _search_google_scholar,
      _search_google_books, _search_sciencedirect, pyOrEmpty_eq]
    exact ⟨_, rfl, rfl, rfl, Or.inl rfl⟩
  · simp only [process_research_query, hget, CacheService.store_result,
      CacheService.allOk, _coordinate_research_sources, _search_google_scholar,
      _search_google_books, _search_sciencedirect, pyOrEmpty_eq]
    exact ⟨_, rfl, rfl, rfl, Or.inr (Or.inl rfl)⟩
  · simp only [process_research_query, hget, CacheService.store_result,
      CacheService.allOk, _coordinate_research_sources, _search_google_scholar,
      _search_google_books, _search_sciencedirect, pyOrEmpty_eq]
    exact ⟨_, rfl, rfl, rfl, Or.inr (Or.inr rfl)⟩

/-- Exactly one adapter (Google Scholar) succeeds; the others throw. -/
def oneAdapterOkWorld : World :=
  { now := 0, query_id := "query-c4", query_text := "machine learning".data,
    db := CacheService.emptyDB, lookupFault := none,
    fanout := .completed (.ok [samplePaper]) (.error ()) (.error ()),
    ai := .ok sampleSynthesis, store := CacheService.allOk }

/-- Witness for C4 at the concrete partial-failure world. -/
theorem process_two_adapters_fail_witness :
    oneAdapterOkWorld.lookupFault = none ∧
    CacheService.findOne oneAdapterOkWorld.now
      (generate_cache_key oneAdapterOkWorld.query_text)
      oneAdapterOkWorld.db.research_results = none ∧
    oneAdapterOkWorld.store = CacheService.allOk ∧
    (oneAdapterOkWorld.fanout
        = .completed (.ok [samplePaper]) (.error ()) (.error ())
      ∨ oneAdapterOkWorld.fanout
        = .completed (.error ()) (.ok [samplePaper]) (.error ())
      ∨ oneAdapterOkWorld.fanout
        = .completed (.error ()) (.error ()) (.ok [samplePaper])) ∧
    ∃ r : ResearchResult,
      (process_research_query oneAdapterOkWorld true).outcome = Except.ok r ∧
      (process_research_query oneAdapterOkWorld true).status
        = some QueryStatus.completed ∧
      r.results.map Prod.fst = [SourceType.google_scholar.value,
        SourceType.google_books.value, SourceType.sciencedirect.value] ∧
      (r.results = [(SourceType.google_scholar.value, [samplePaper]),
          (SourceType.google_books.value, []),
          (SourceType.sciencedirect.value, [])]
        ∨ r.results = [(SourceType.google_scholar.value, []),
          (SourceType.google_books.value, [samplePaper]),
          (SourceType.sciencedirect.value, [])]
        ∨ r.results = [(SourceType.google_scholar.value, []),
          (SourceType.google_books.value, []),
          (SourceType.sciencedirect.value, [samplePaper])]) :=
  ⟨rfl, rfl, rfl, Or.inl rfl,
   process_two_adapters_fail oneAdapterOkWorld [samplePaper] rfl rfl rfl
     (Or.inl rfl)⟩

/-- C5 (claim): when the overall fan-out timeout elapses before the
adapters return, `asyncio.wait_for` resumes the orchestrator with
`TimeoutError` no later than `timeout_seconds` (plus scheduler epsilon)
after the fan-out began; the handler then reports every not-yet-completed
source — here all three — as an empty list, and `process_research_query`
returns normally instead of blocking or raising. -/
theorem process_fanout_timeout (w : World)
    (hfault : w.lookupFault = none)
    (hmiss : CacheService.findOne w.now (generate_cache_key w.query_text)
        w.db.research_results = none)
    (hfan : w.fanout = .timedOut)
    (hstore : w.store = CacheService.allOk) :
    _coordinate_research_sources FanoutEnv.timedOut
      = [(SourceType.google_scholar.value, []),
         (SourceType.google_books.value, []),
         (SourceType.sciencedirect.value, [])] ∧
    ∃ r : ResearchResult,
      (process_research_query w true).outcome = Except.ok r ∧
      (process_research_query w true).status = some QueryStatus.completed ∧
      r.results = [(SourceType.google_scholar.value, []),
        (SourceType.google_books.value, []),
        (SourceType.sciencedirect.value, [])] := by
  obtain ⟨now, qid, qt, db, lf, fan, ai, store⟩ := w
  dsimp only at hfault hmiss hfan hstore
  subst hfault hfan hstore
  have hget : CacheService.get_cached_result now qt db = (none, db) := by
    dsimp only [CacheService.get_cached_result]
    rw [hmiss]
  refine ⟨rfl, ?_⟩
  simp only [process_research_query, hget, CacheService.store_result,
    CacheService.allOk]
  exact ⟨_, rfl, rfl, rfl⟩

/-- Adapters that never return: the fan-out times out. -/
def timeoutWorld : World :=
  { now := 0, query_id := "query-c5", query_text := "machine learning".data,
    db := CacheService.emptyDB, lookupFault := none, fanout := .timedOut,
    ai := .ok sampleSynthesis, store := CacheService.allOk }

/-- Witness for C5 at the concrete timed-out world. -/
theorem process_fanout_timeout_witness :
    timeoutWorld.lookupFault = none ∧
    CacheService.findOne timeoutWorld.now
      (generate_cache_key timeoutWorld.query_text)
      timeoutWorld.db.research_results = none ∧
    timeoutWorld.fanout = .timedOut ∧
    timeoutWorld.store = CacheService.allOk ∧
    (_coordinate_research_sources FanoutEnv.timedOut
      = [(SourceType.google_scholar.value, []),
         (SourceType.google_books.value, []),
         (SourceType.sciencedirect.value, [])] ∧
    ∃ r : ResearchResult,
      (process_research_query timeoutWorld true).outcome = Except.ok r ∧
      (process_research_query timeoutWorld true).status
        = some QueryStatus.completed ∧
      r.results = [(SourceType.google_scholar.value, []),
        (SourceType.google_books.value, []),
        (SourceType.sciencedirect.value, [])]) :=
  ⟨rfl, rfl, rfl, rfl, process_fanout_timeout timeoutWorld rfl rfl rfl rfl⟩

/-- C7 (claim): for a known query id whose query text has a non-expired
cache entry, `process_research_query` returns the cached payload marked
`cached = True`, transitions the query to `Completed`, runs no source
adapter fan-out and no AI synthesis, and the lookup increments the
hit counter of the entry by exactly one. -/
theorem process_cache_hit (w : World) (doc : CacheService.StoredResult)
    (hfault : w.lookupFault = none)
    (hfind : CacheService.findOne w.now (generate_cache_key w.query_text)
        w.db.research_results = some doc) :
    (process_research_query w true).outcome
      = Except.ok { doc.payload with cached := true } ∧
    (process_research_query w true).status = some QueryStatus.completed ∧
    (process_research_query w true).ranFanout = false ∧
    (process_research_query w true).ranSynthesis = false ∧
    CacheService.hitCountOf (generate_cache_key w.query_text)
        (process_research_query w true).db.cache_metadata
      = CacheService.hitCountOf (generate_cache_key w.query_text)
          w.db.cache_metadata + 1 := by
  obtain ⟨now, qid, qt, db, lf, fan, ai, store⟩ := w
  dsimp only at hfault hfind ⊢
  subst hfault
  have hget : CacheService.get_cached_result now qt db
      = (some { doc.payload with cached := true },
         { db with cache_metadata := CacheService.bumpHitCount (generate_cache_key qt) qt now db.cache_metadata }) := by
    dsimp only [CacheService.get_cached_result]
    rw [hfind]
  simp only [process_research_query, hget]
  exact ⟨rfl, rfl, rfl, rfl,
    CacheService.hitCountOf_bumpHitCount (generate_cache_key qt) qt now
      db.cache_metadata⟩

/-- A live cache entry for the query `"machine learning"`: its hash is the
MD5 hex digest of the normalized form `"learning machine"`. -/
def cachedDoc : CacheService.StoredResult :=
  { query_hash := "00980381b987946f444cdf1494468de6".data,
    original_query := "machine learning".data, expires_at := 100,
    payload := CacheService.sampleResult }

def cacheHitWorld : World :=
  { now := 0, query_id := "query-c7", query_text := "machine learning".data,
    db := { research_results := [cachedDoc], cache_metadata := [] },
    lookupFault := none, fanout := .timedOut, ai := .error (),
    store := CacheService.allOk }

/-- Witness for C7 at the concrete cache-hit world; checking the `findOne`
hypothesis forces the kernel to recompute the MD5 cache key and compare it
with the stored hex digest. -/
theorem process_cache_hit_witness :
    cacheHitWorld.lookupFault = none ∧
    CacheService.findOne cacheHitWorld.now
      (generate_cache_key cacheHitWorld.query_text)
      cacheHitWorld.db.research_results = some cachedDoc ∧
    ((process_research_query cacheHitWorld true).outcome
      = Except.ok { cachedDoc.payload with cached := true } ∧
    (process_research_query cacheHitWorld true).status
      = some QueryStatus.completed ∧
    (process_research_query cacheHitWorld true).ranFanout = false ∧
    (process_research_query cacheHitWorld true).ranSynthesis = false ∧
    CacheService.hitCountOf (generate_cache_key cacheHitWorld.query_text)
        (process_research_query cacheHitWorld true).db.cache_metadata
      = CacheService.hitCountOf (generate_cache_key cacheHitWorld.query_text)
          cacheHitWorld.db.cache_metadata + 1) :=
  ⟨rfl, rfl, process_cache_hit cacheHitWorld cachedDoc rfl rfl⟩

end ResearchOrchestrator

end ResearchAgent
